import Mathlib

/-!
Verification of the mail-builder MIME serialization engine.

This file gives a shallow embedding, in Lean 4, of the core of the
stalwartlabs/mail-builder repository: the byte-oriented encoders
(src/encoders/quoted_printable.rs, src/encoders/base64.rs), the
encoding-policy selector (src/encode.rs), the unstructured-text header
writer (src/headers/text.rs), and the iterative MIME part tree writer
(src/mime.rs).  Machine integers (u8, usize) are modelled as Nat; byte
buffers are List Nat; fallible or panicking code returns Option.
Theorems at the end of the file settle the specification claims.
-/

set_option maxRecDepth 40000

/-- Bytes of a Lean string literal (all literals used here are ASCII). -/
def strBytes (s : String) : List Nat := s.data.map Char.toNat

/-- Uppercase hexadecimal digit, as in Rust's format!("{:02X}", ch). -/
def hexDig (d : Nat) : Nat := if d < 10 then 48 + d else 55 + d

/-- The three output bytes of the =XX escape produced by format!("={:02X}", ch)
for a byte ch (61 is the ASCII code of the equals sign). -/
def hexEsc (ch : Nat) : List Nat := [61, hexDig (ch / 16), hexDig (ch % 16)]

/-- Lengths of the lines of a byte stream: the count of non-CR bytes between
line-break LFs, in order, ending with the (possibly unterminated) final line.
A CR byte is not counted towards a line's length, so a CRLF-terminated line
and a bare-LF-terminated line are measured the same way. -/
def lineLens : List Nat → Nat → List Nat
  | [], cur => [cur]
  | ch :: rest, cur =>
    if ch = 10 then cur :: lineLens rest 0
    else if ch = 13 then lineLens rest cur
    else lineLens rest (cur + 1)

/-! ## src/encoders/quoted_printable.rs -/

/-- Embedding of quoted_printable_encode_byte: the RFC 2047 "Q" encoding of a
single byte (the inline variant used inside encoded-words). -/
def quoted_printable_encode_byte (ch : Nat) : List Nat :=
  if ch = 61 ∨ ch = 63 ∨ ch = 95 ∨ ch = 9 ∨ ch = 13 ∨ ch = 10 ∨ 127 ≤ ch then
    hexEsc ch
  else if ch = 32 then [95]
  else [ch]

/-- Embedding of inline_quoted_printable_encode. -/
def inline_quoted_printable_encode (input : List Nat) : List Nat :=
  match input with
  | [] => []
  | ch :: rest => quoted_printable_encode_byte ch ++ inline_quoted_printable_encode rest

/-- Condition of quoted_printable_encode (body branch) classifying a space or
tab byte as trailing: the remaining input starts with LF or with CR LF, or
the byte is the last one of the input. -/
def qpTrailingWs (ch : Nat) (rest : List Nat) : Bool :=
  (ch == 32 || ch == 9) &&
    (match rest with
     | 10 :: _ => true
     | 13 :: 10 :: _ => true
     | [] => true
     | _ => false)

/-- Main loop of quoted_printable_encode with is_body = true.  The state is
the remaining input, prev_ch and bytes_written; the output bytes are
returned.  Note, as in the source, that prev_ch is updated only in the final
plain-byte branch. -/
def qpBodyLoop : List Nat → Nat → Nat → List Nat
  | [], _, _ => []
  | ch :: rest, prev, bw =>
    if ch = 61 ∨ 127 ≤ ch ∨ qpTrailingWs ch rest = true then
      if bw + 3 > 76 then [61, 13, 10] ++ hexEsc ch ++ qpBodyLoop rest prev 3
      else hexEsc ch ++ qpBodyLoop rest prev (bw + 3)
    else if ch = 10 then
      (if prev ≠ 13 then [13, 10] else [10]) ++ qpBodyLoop rest prev 0
    else
      if bw + 1 > 76 then [61, 13, 10] ++ ch :: qpBodyLoop rest ch 1
      else ch :: qpBodyLoop rest ch (bw + 1)

/-- Main loop of quoted_printable_encode with is_body = false (attachment
mode): CR and LF are escaped rather than treated as line breaks, and a space
or tab is escaped only when it is the very last input byte. -/
def qpAttLoop : List Nat → Nat → List Nat
  | [], _ => []
  | ch :: rest, bw =>
    if ch = 61 ∨ 127 ≤ ch ∨ ch = 13 ∨ ch = 10 ∨ ((ch = 32 ∨ ch = 9) ∧ rest = []) then
      if bw + 3 > 76 then [61, 13, 10] ++ hexEsc ch ++ qpAttLoop rest 3
      else hexEsc ch ++ qpAttLoop rest (bw + 3)
    else
      if bw + 1 > 76 then [61, 13, 10] ++ ch :: qpAttLoop rest 1
      else ch :: qpAttLoop rest (bw + 1)

/-- Embedding of quoted_printable_encode (the output bytes written; the
source's io::Result bytes-written return value is not modelled, no claim
concerns it). -/
def quoted_printable_encode (input : List Nat) (is_body : Bool) : List Nat :=
  if is_body then qpBodyLoop input 0 0 else qpAttLoop input 0

/-! ## src/encoders/base64.rs -/

/-- Table E0 of base64.rs: each base64 alphabet character repeated four
times, so that E0[t] is the alphabet character of index t >> 2. -/
def E0 : List Nat := strBytes "AAAABBBBCCCCDDDDEEEEFFFFGGGGHHHHIIIIJJJJKKKKLLLLMMMMNNNNOOOOPPPPQQQQRRRRSSSSTTTTUUUUVVVVWWWWXXXXYYYYZZZZaaaabbbbccccddddeeeeffffgggghhhhiiiijjjjkkkkllllmmmmnnnnooooppppqqqqrrrrssssttttuuuuvvvvwwwwxxxxyyyyzzzz0000111122223333444455556666777788889999++++////"

/-- Table E1 of base64.rs: the base64 alphabet repeated four times, so that
E1[i] is the alphabet character of index i mod 64. -/
def E1 : List Nat := strBytes "ABCDEFGHIJKLMNOPQRSTUVWXYZabcdefghijklmnopqrstuvwxyz0123456789+/ABCDEFGHIJKLMNOPQRSTUVWXYZabcdefghijklmnopqrstuvwxyz0123456789+/ABCDEFGHIJKLMNOPQRSTUVWXYZabcdefghijklmnopqrstuvwxyz0123456789+/ABCDEFGHIJKLMNOPQRSTUVWXYZabcdefghijklmnopqrstuvwxyz0123456789+/"

/-- Table E2 of base64.rs, identical to E1. -/
def E2 : List Nat := strBytes "ABCDEFGHIJKLMNOPQRSTUVWXYZabcdefghijklmnopqrstuvwxyz0123456789+/ABCDEFGHIJKLMNOPQRSTUVWXYZabcdefghijklmnopqrstuvwxyz0123456789+/ABCDEFGHIJKLMNOPQRSTUVWXYZabcdefghijklmnopqrstuvwxyz0123456789+/ABCDEFGHIJKLMNOPQRSTUVWXYZabcdefghijklmnopqrstuvwxyz0123456789+/"

/-- The four output characters of a full three-byte base64 group, exactly as
indexed in the main loop of base64_encode_mime. -/
def b64group (t1 t2 t3 : Nat) : List Nat :=
  [E0.getD t1 0,
   E1.getD (((t1 &&& 0x03) <<< 4) ||| ((t2 >>> 4) &&& 0x0F)) 0,
   E1.getD (((t2 &&& 0x0F) <<< 2) ||| ((t3 >>> 6) &&& 0x03)) 0,
   E2.getD t3 0]

/-- The four output characters for a final group of one remaining byte
(61 is CHARPAD, the padding character). -/
def b64pad1 (t1 : Nat) : List Nat :=
  [E0.getD t1 0, E1.getD ((t1 &&& 0x03) <<< 4) 0, 61, 61]

/-- The four output characters for a final group of two remaining bytes. -/
def b64pad2 (t1 t2 : Nat) : List Nat :=
  [E0.getD t1 0,
   E1.getD (((t1 &&& 0x03) <<< 4) ||| ((t2 >>> 4) &&& 0x0F)) 0,
   E2.getD ((t2 &&& 0x0F) <<< 2) 0,
   61]

/-- Embedding of base64_encode_mime: the main while loop consumes full
three-byte groups (bw is bytes_written, counting output characters), the
remainder block emits a padded final group, and in non-inline mode a CRLF is
inserted whenever bytes_written is a multiple of 19 (equivalently, after
every 19 four-character groups, i.e. 76 characters), with a final CRLF when
the last line is partial. -/
def b64loop (is_inline : Bool) : List Nat → Nat → List Nat
  | t1 :: t2 :: t3 :: rest, bw =>
    b64group t1 t2 t3 ++
      (if is_inline = false ∧ (bw + 4) % 19 = 0 then [13, 10] else []) ++
      b64loop is_inline rest (bw + 4)
  | [t1], bw =>
    b64pad1 t1 ++
      (if is_inline = false ∧ (bw + 4) % 19 = 0 then [13, 10] else []) ++
      (if is_inline = false ∧ (bw + 4) % 19 ≠ 0 then [13, 10] else [])
  | [t1, t2], bw =>
    b64pad2 t1 t2 ++
      (if is_inline = false ∧ (bw + 4) % 19 = 0 then [13, 10] else []) ++
      (if is_inline = false ∧ (bw + 4) % 19 ≠ 0 then [13, 10] else [])
  | [], bw =>
    if is_inline = false ∧ bw % 19 ≠ 0 then [13, 10] else []

/-- Embedding of base64_encode_mime (output bytes). -/
def base64_encode_mime (input : List Nat) (is_inline : Bool) : List Nat :=
  b64loop is_inline input 0

/-- The base64 characters of base64_encode_mime without the inserted CRLF
line breaks: the plain RFC 4648 encoding of the input. -/
def b64flat : List Nat → List Nat
  | t1 :: t2 :: t3 :: rest => b64group t1 t2 t3 ++ b64flat rest
  | [t1] => b64pad1 t1
  | [t1, t2] => b64pad2 t1 t2
  | [] => []

/-- Value of a character of the standard RFC 4648 base64 alphabet. -/
def b64val (c : Nat) : Option Nat :=
  if 65 ≤ c ∧ c ≤ 90 then some (c - 65)
  else if 97 ≤ c ∧ c ≤ 122 then some (c - 97 + 26)
  else if 48 ≤ c ∧ c ≤ 57 then some (c - 48 + 52)
  else if c = 43 then some 62
  else if c = 47 then some 63
  else none

/-- Standard RFC 4648 base64 decoding of a padded character stream,
four characters at a time, with padding accepted only in the final group.
This is the reference decoder named by the round-trip claim; it is defined
from RFC 4648, not from the repository. -/
def b64decodeGroups : List Nat → Option (List Nat)
  | [] => some []
  | c1 :: c2 :: c3 :: c4 :: rest =>
    match b64val c1, b64val c2 with
    | some v1, some v2 =>
      if c3 = 61 then
        if c4 = 61 ∧ rest = [] then some [v1 * 4 + v2 / 16] else none
      else
        match b64val c3 with
        | some v3 =>
          if c4 = 61 then
            if rest = [] then some [v1 * 4 + v2 / 16, (v2 % 16) * 16 + v3 / 4] else none
          else
            match b64val c4, b64decodeGroups rest with
            | some v4, some tail =>
              some ([v1 * 4 + v2 / 16, (v2 % 16) * 16 + v3 / 4, (v3 % 4) * 64 + v4] ++ tail)
            | _, _ => none
        | none => none
    | _, _ => none
  | _ => none

/-- RFC 4648 base64 decoding that first discards CR and LF bytes (the
line breaks inserted by the non-inline encoder). -/
def rfc4648_decode (s : List Nat) : Option (List Nat) :=
  b64decodeGroups (s.filter (fun c => decide (c ≠ 13 ∧ c ≠ 10)))

/-! ## src/encode.rs (the encoding-policy selector present under src/) -/

inductive EncodingType where
  | base64 : EncodingType
  | quotedPrintable (is_ascii : Bool) : EncodingType
  | none : EncodingType
deriving DecidableEq

/-- Scan state of get_encoding_type. -/
structure EncSt where
  qp_len : Nat
  is_ascii : Bool
  needs_encoding : Bool
  line_len : Nat
deriving DecidableEq

/-- Loop body of get_encoding_type for one byte ch, with rest the input
after ch (used for the lookahead deciding whether a space or tab is
trailing, matching input.get(pos + 1..)). -/
def encStep (is_inline : Bool) (check997 : Bool) (ch : Nat) (rest : List Nat) (st : EncSt) : EncSt :=
  let st := { st with line_len := st.line_len + 1 }
  if 127 ≤ ch ∨ ((ch = 32 ∨ ch = 9) ∧ qpTrailingWs ch rest = true) then
    { st with
      qp_len := st.qp_len + 3
      needs_encoding := true
      is_ascii := if st.is_ascii = true ∧ 127 ≤ ch then false else st.is_ascii }
  else if ch = 61 ∨ (is_inline = true ∧ (ch = 9 ∨ ch = 63)) then
    { st with qp_len := st.qp_len + 3 }
  else if ch = 10 then
    { st with
      qp_len := st.qp_len + 1
      needs_encoding :=
        if check997 = true ∧ st.needs_encoding = false ∧ 997 < st.line_len then true
        else st.needs_encoding
      line_len := 0 }
  else
    { st with qp_len := st.qp_len + 1 }

/-- Scan loop of get_encoding_type. -/
def encLoop (is_inline : Bool) (check997 : Bool) : List Nat → EncSt → EncSt
  | [], st => st
  | ch :: rest, st => encLoop is_inline check997 rest (encStep is_inline check997 ch rest st)

/-- Embedding of get_encoding_type from src/encode.rs.  The base64 length
(len * 4 / 3 + 3) & !3 is written with the low two bits cleared
arithmetically. -/
def get_encoding_type (input : List Nat) (is_inline : Bool) : EncodingType :=
  let base64_len := ((input.length * 4 / 3 + 3) / 4) * 4
  let st0 : EncSt :=
    { qp_len := if is_inline = false then input.length / 76 else 0
      is_ascii := true
      needs_encoding := false
      line_len := 0 }
  let st := encLoop is_inline true input st0
  if st.needs_encoding = false then EncodingType.none
  else if st.qp_len < base64_len then EncodingType.quotedPrintable st.is_ascii
  else EncodingType.base64

/-- Modelled from the spec: the three-argument get_encoding_type of the
crate::encoders::encode module is declared and called by src/mime.rs and
src/headers/text.rs but its file is not under src/.  This definition follows
section 4.1 of the specification: a single scan accumulating base64_len =
ceil(len/3)*4; qp_len (3 bytes per escape-requiring byte, 1 otherwise, plus
one byte of soft-line-break overhead per 76 input bytes for non-inline use);
needs_encoding set by any byte at or above 127, by a space or tab
immediately before a line terminator or at the very end, or, for
non-inline/body use, by a line longer than 997 bytes; is_ascii cleared by
any byte at or above 127; a byte equal to the equals sign always counts 3
bytes, and when inline so do tab and the question mark.  Decision: None when
needs_encoding is false, QuotedPrintable(is_ascii) when qp_len < base64_len,
Base64 otherwise. -/
def get_encoding_type_spec (input : List Nat) (is_inline : Bool) (_is_body : Bool) : EncodingType :=
  let base64_len := ((input.length + 2) / 3) * 4
  let st0 : EncSt :=
    { qp_len := if is_inline = false then input.length / 76 else 0
      is_ascii := true
      needs_encoding := false
      line_len := 0 }
  let st := encLoop is_inline (!is_inline) input st0
  if st.needs_encoding = false then EncodingType.none
  else if st.qp_len < base64_len then EncodingType.quotedPrintable st.is_ascii
  else EncodingType.base64

/-! ## src/headers/text.rs -/

/-- The inlined UTF-8 character-boundary test of Text::write_header:
(ch as i8) >= -0x40 holds for a u8 exactly when ch < 0x80 or 0xC0 <= ch,
i.e. when ch is not a UTF-8 continuation byte. -/
def isUtf8Boundary (ch : Nat) : Bool := ch < 128 || 192 ≤ ch

/-- A UTF-8 continuation byte: its two high bits are 10. -/
def isContinuationByte (ch : Nat) : Bool := 128 ≤ ch && ch < 192

/-- The encoded-word Q loop of Text::write_header: pfx is the bytes of the
chosen encoded-word opener, pos the current byte index, bw the running
bytes_written.  Returns the output bytes together with the list of input
positions at which a fold (the "?=", CRLF, tab, opener sequence) was
emitted. -/
def qLoop (pfx : List Nat) : List Nat → Nat → Nat → List Nat × List Nat
  | [], _, _ => ([], [])
  | ch :: rest, pos, bw =>
    if 76 ≤ bw ∧ (pos = 0 ∨ isUtf8Boundary ch = true) then
      let enc := quoted_printable_encode_byte ch
      let next := qLoop pfx rest (pos + 1) (1 + pfx.length + enc.length)
      (strBytes "?=\r\n\t" ++ pfx ++ enc ++ next.1, pos :: next.2)
    else
      let enc := quoted_printable_encode_byte ch
      let next := qLoop pfx rest (pos + 1) (bw + enc.length)
      (enc ++ next.1, next.2)

/-- Splitting of a list into chunks of n elements (Rust's slice::chunks);
an empty slice yields no chunks.  Only meaningful for n > 0; the n = 0 case
(which panics in Rust) is handled by the caller. -/
def chunksOf (n : Nat) (l : List Nat) : List (List Nat) :=
  if l = [] then []
  else if n = 0 then []
  else l.take n :: chunksOf n (l.drop n)
termination_by l.length
decreasing_by
  rename_i hl hn
  rcases l with _ | ⟨a, l⟩
  · simp at hl
  · simp
    omega

/-- The B branch of Text::write_header: each chunk of (76 - bytes_written)
input bytes becomes one utf-8 B encoded-word on its own line, chunks after
the first being preceded by a tab. -/
def bChunks : List (List Nat) → Bool → List Nat
  | [], _ => []
  | c :: cs, first =>
    (if first = true then [] else [9]) ++
      strBytes "=?utf-8?B?" ++ b64loop true c 0 ++ strBytes "?=\r\n" ++
      bChunks cs false

/-- The None branch of Text::write_header: fold at an ASCII whitespace byte
once bytes_written reaches 76, except at the very last byte. -/
def textNoneLoop (len : Nat) : List Nat → Nat → Nat → List Nat
  | [], _, _ => []
  | ch :: rest, pos, bw =>
    if 76 ≤ bw ∧ (ch = 32 ∨ ch = 9 ∨ ch = 10 ∨ ch = 12 ∨ ch = 13) ∧ pos < len - 1 then
      strBytes "\r\n\t" ++ ch :: textNoneLoop len rest (pos + 1) (1 + 1)
    else
      ch :: textNoneLoop len rest (pos + 1) (bw + 1)

/-- Embedding of Text::write_header.  The selector is the spec-modelled
three-argument get_encoding_type (inline, not body).  The Base64 branch
computes the chunk size 76 - bytes_written in usize arithmetic: when
bytes_written exceeds 76 the subtraction overflows (a panic in a checked
build), and when it equals 76 the chunk size is zero and slice::chunks
panics; both panics are modelled as none. -/
def Text.write_header (text : List Nat) (bytes_written : Nat) : Option (List Nat) :=
  match get_encoding_type_spec text true false with
  | EncodingType.base64 =>
    if bytes_written ≤ 76 then
      if 76 - bytes_written = 0 then none
      else some (bChunks (chunksOf (76 - bytes_written) text) true)
    else none
  | EncodingType.quotedPrintable is_ascii =>
    let pfx := if is_ascii = true then strBytes "=?us-ascii?Q?" else strBytes "=?utf-8?Q?"
    some (pfx ++ (qLoop pfx text 0 (bytes_written + pfx.length)).1 ++ strBytes "?=\r\n")
  | EncodingType.none =>
    some (textNoneLoop text.length text 0 bytes_written ++ strBytes "\r\n")

/-! ## Strings: ASCII case-insensitive comparison, substring search, split -/

/-- ASCII lowercasing of one character. -/
def asciiLower (c : Char) : Char :=
  if 65 ≤ c.toNat ∧ c.toNat ≤ 90 then Char.ofNat (c.toNat + 32) else c

/-- Embedding of str::eq_ignore_ascii_case. -/
def eqIgnoreCase (a b : String) : Bool :=
  a.data.map asciiLower == b.data.map asciiLower

/-- Whether the first list is a prefix of the second. -/
def listIsPfx : List Char → List Char → Bool
  | [], _ => true
  | _ :: _, [] => false
  | p :: ps, c :: cs => p == c && listIsPfx ps cs

/-- Auxiliary scan for strFind, tracking the current index. -/
def findSubAux (pat : List Char) : List Char → Nat → Option Nat
  | [], i => if listIsPfx pat [] then some i else none
  | s, i =>
    if listIsPfx pat s then some i
    else
      match s with
      | [] => none
      | _ :: cs => findSubAux pat cs (i + 1)

/-- Embedding of str::find for a literal pattern: index of the first
occurrence of pat in s. -/
def strFind (s pat : String) : Option Nat := findSubAux pat.data s.data 0

/-- Embedding of str::split on a single character: the list of segments
between occurrences of c (always nonempty). -/
def splitOnChar (c : Char) : List Char → List (List Char)
  | [] => [[]]
  | a :: rest =>
    if a == c then [] :: splitOnChar c rest
    else
      match splitOnChar c rest with
      | [] => [[a]]
      | seg :: segs => (a :: seg) :: segs

/-! ## src/headers: the header value model -/

/-- Embedding of the ContentType header value (src/headers/content_type.rs). -/
structure ContentType where
  c_type : String
  attributes : List (String × String)
deriving DecidableEq

/-- Embedding of ContentType::is_text. -/
def ContentType.is_text (ct : ContentType) : Bool := ct.c_type.startsWith "text/"

/-- Embedding of ContentType::is_attachment. -/
def ContentType.is_attachment (ct : ContentType) : Bool := ct.c_type == "attachment"

/-- Embedding of the Address enum (src/headers/address.rs): an RFC5322
e-mail address, a named group of addresses, or a list of addresses. -/
inductive Address where
  | addr (name : Option String) (email : String) : Address
  | group (name : Option String) (addresses : List Address) : Address
  | list (items : List Address) : Address

/-- Embedding of EmailAddress::write_header (src/headers/address.rs): the
optional display name through rfc2047_encode, a fold or space, then the
angle-bracketed address; returns the written bytes and the reported
bytes_written (the running count plus the address length plus two). -/
def EmailAddress.write_header (rfc : String → List Nat × Nat) (name : Option String)
    (email : String) (bw : Nat) : List Nat × Nat :=
  match name with
  | some n =>
    let bw1 := bw + (rfc n).2
    if 76 ≤ bw1 + email.length + 2 then
      ((rfc n).1 ++ strBytes "\r\n\t" ++ [60] ++ strBytes email ++ [62], 1 + email.length + 2)
    else
      ((rfc n).1 ++ [32] ++ [60] ++ strBytes email ++ [62], bw1 + 1 + email.length + 2)
  | none => ([60] ++ strBytes email ++ [62], bw + email.length + 2)

/-- The member loop of GroupedAddresses::write_header: every member must be
a plain e-mail address (unwrap_address panics otherwise, modelled as none). -/
def grpLoop (rfc : String → List Nat × Nat) (total : Nat) :
    List Address → Nat → Nat → Option (List Nat × Nat)
  | [], _, bw => some ([], bw)
  | a :: rest, pos, bw =>
    match a with
    | Address.addr nm em =>
      let folded := 76 ≤ bw + em.length + (match nm with | some n => n.length + 3 | none => 0) + 2
      let bw1 := if folded then 1 else bw
      let r := EmailAddress.write_header rfc nm em bw1
      let sep := pos < total - 1
      let bw2 := bw1 + r.2 + (if sep then 2 else 0)
      (match grpLoop rfc total rest (pos + 1) bw2 with
       | some (bs, bwf) =>
         some ((if folded then strBytes "\r\n\t" else []) ++ r.1 ++
           (if sep then strBytes ", " else []) ++ bs, bwf)
       | none => none)
    | _ => none

/-- Embedding of GroupedAddresses::write_header: the optional group name
through rfc2047_encode with a colon, then the members. -/
def GroupedAddresses.write_header (rfc : String → List Nat × Nat) (name : Option String)
    (addrs : List Address) (bw : Nat) : Option (List Nat × Nat) :=
  let pre : List Nat × Nat :=
    match name with
    | some n => ((rfc n).1 ++ strBytes ": ", bw + (rfc n).2 + 2)
    | none => ([], bw)
  match grpLoop rfc addrs.length addrs 0 pre.2 with
  | some (bs, bwf) => some (pre.1 ++ bs, bwf)
  | none => none

/-- The item loop of the Address::List branch of Address::write_header: a
fold check sized by the upcoming item, then the item; a nested List item
reaches the unreachable branch (modelled as none). -/
def addrListLoop (rfc : String → List Nat × Nat) (total : Nat) :
    List Address → Nat → Nat → Option (List Nat)
  | [], _, _ => some []
  | a :: rest, pos, bw =>
    let size : Nat :=
      match a with
      | Address.addr nm em => em.length + (match nm with | some n => n.length + 3 | none => 0) + 2
      | Address.group nm _ => (match nm with | some n => n.length + 2 | none => 0)
      | Address.list _ => 0
    let folded := 76 ≤ bw + size
    let bw1 := if folded then 1 else bw
    match a with
    | Address.addr nm em =>
      let r := EmailAddress.write_header rfc nm em bw1
      let sep := pos < total - 1
      let bw2 := bw1 + r.2 + (if sep then 1 else 0)
      (match addrListLoop rfc total rest (pos + 1) bw2 with
       | some bs =>
         some ((if folded then strBytes "\r\n\t" else []) ++ r.1 ++
           (if sep then strBytes ", " else []) ++ bs)
       | none => none)
    | Address.group nm addrs =>
      (match GroupedAddresses.write_header rfc nm addrs bw1 with
       | some (gb, gbw) =>
         let sep := pos < total - 1
         let bw2 := bw1 + gbw + (if sep then 1 else 0)
         (match addrListLoop rfc total rest (pos + 1) bw2 with
          | some bs =>
            some ((if folded then strBytes "\r\n\t" else []) ++ gb ++
              (if sep then strBytes "; " else []) ++ bs)
          | none => none)
       | none => none)
    | Address.list _ => none

/-- Embedding of Address::write_header (impl Header for Address): panics —
a List nested inside a List (unreachable) or a non-address member of a
Group (unwrap_address) — are modelled as none. -/
def Address.write_header (rfc : String → List Nat × Nat) :
    Address → Nat → Option (List Nat)
  | .addr nm em, bw => some ((EmailAddress.write_header rfc nm em bw).1 ++ strBytes "\r\n")
  | .group nm addrs, bw =>
    (match GroupedAddresses.write_header rfc nm addrs bw with
     | some r => some (r.1 ++ strBytes "\r\n")
     | none => none)
  | .list items, bw =>
    (match addrListLoop rfc items.length items 0 bw with
     | some bs => some (bs ++ strBytes "\r\n")
     | none => none)

/-- The id loop of MessageId::write_header: each id in angle brackets, with
a fold after any id that pushes the count to 76 except the last; returns
the bytes and the final count. -/
def midLoop (total : Nat) : List String → Nat → Nat → List Nat × Nat
  | [], _, bw => ([], bw)
  | id :: rest, pos, bw =>
    let bw1 := bw + id.length + 2
    if 76 ≤ bw1 ∧ pos < total - 1 then
      let next := midLoop total rest (pos + 1) 0
      ([60] ++ strBytes id ++ [62] ++ strBytes "\r\n\t" ++ next.1, next.2)
    else
      let next := midLoop total rest (pos + 1) bw1
      ([60] ++ strBytes id ++ [62] ++ next.1, next.2)

/-- Embedding of MessageId::write_header (src/headers/message_id.rs). -/
def MessageId.write_header (ids : List String) (bw : Nat) : List Nat :=
  let r := midLoop ids.length ids 0 bw
  r.1 ++ (if 0 < r.2 then strBytes "\r\n" else [])

/-- The url loop of URL::write_header: from the second url on, a fold or a
space; each url in angle brackets, comma-separated except the last. -/
def urlLoop (total : Nat) : List String → Nat → Nat → List Nat × Nat
  | [], _, bw => ([], bw)
  | url :: rest, pos, bw =>
    let pre : List Nat × Nat :=
      if 0 < pos then
        (if 76 ≤ bw + url.length + 2 then (strBytes "\r\n\t", 1) else ([32], bw + 1))
      else ([], bw)
    let sep := pos < total - 1
    let seg := [60] ++ strBytes url ++ (if sep then [62, 44] else [62])
    let bw2 := pre.2 + url.length + (if sep then 3 else 2)
    let next := urlLoop total rest (pos + 1) bw2
    (pre.1 ++ seg ++ next.1, next.2)

/-- Embedding of URL::write_header (src/headers/url.rs). -/
def URL.write_header (urls : List String) (bw : Nat) : List Nat :=
  let r := urlLoop urls.length urls 0 bw
  r.1 ++ (if 0 < r.2 then strBytes "\r\n" else [])

/-- Embedding of Date::write_header (src/headers/date.rs): the RFC 2822
rendering of the timestamp comes from the chrono crate (external to this
repository) and is abstracted as a collaborator returning none exactly when
Utc.timestamp_opt is not a single instant, in which case only CRLF is
written. -/
def Date.write_header (render : Int → Option String) (d : Int) : List Nat :=
  (match render d with
   | some s => strBytes s
   | none => []) ++ strBytes "\r\n"

/-- Embedding of the HeaderType enum (src/headers/mod.rs).  The Text payload
is carried as its UTF-8 bytes (the writer only reads text.as_bytes()). -/
inductive HeaderType where
  | address (a : Address) : HeaderType
  | date (d : Int) : HeaderType
  | messageId (ids : List String) : HeaderType
  | raw (r : String) : HeaderType
  | text (t : List Nat) : HeaderType
  | url (urls : List String) : HeaderType
  | contentType (ct : ContentType) : HeaderType

/-- Embedding of HeaderType::as_content_type. -/
def HeaderType.as_content_type : HeaderType → Option ContentType
  | .contentType ct => some ct
  | _ => none

/-- The attribute-writing loop of ContentType::write_header, threading
bytes_written, the attribute position, and the total attribute count.  The
rfc argument stands for rfc2047_encode (crate::encoders::encode), which is
declared by content_type.rs but whose file is not under src/; it returns the
bytes it writes together with the byte count it reports. -/
def ctAttrLoop (rfc : String → List Nat × Nat) (total : Nat) :
    List (String × String) → Nat → Nat → List Nat
  | [], _, _ => []
  | (key, value) :: rest, pos, bw =>
    let folded := 76 ≤ bw + key.length + value.length + 3
    let bw1 := if folded then 1 else bw
    let bw2 := bw1 + (rfc value).2 + key.length + 1
    (if folded then strBytes "\r\n\t" else []) ++
      strBytes key ++ [61] ++ (rfc value).1 ++
      (if pos < total - 1 then strBytes "; " else []) ++
      ctAttrLoop rfc total rest (pos + 1) (if pos < total - 1 then bw2 + 2 else bw2)

/-- Embedding of ContentType::write_header. -/
def ContentType.write_header (rfc : String → List Nat × Nat) (ct : ContentType)
    (bytes_written : Nat) : List Nat :=
  strBytes ct.c_type ++
    (if ct.attributes.isEmpty then []
     else strBytes "; " ++
       ctAttrLoop rfc ct.attributes.length ct.attributes 0
         (bytes_written + ct.c_type.length + 2)) ++
    strBytes "\r\n"

/-- Embedding of Raw::write_header (src/headers/raw.rs): the same
whitespace-folding loop as the None branch of Text::write_header, applied to
the raw string, followed by CRLF. -/
def Raw.write_header (r : String) (bytes_written : Nat) : List Nat :=
  textNoneLoop (strBytes r).length (strBytes r) 0 bytes_written ++ strBytes "\r\n"

/-! ## src/mime.rs: the MIME part tree and its writer -/

mutual
inductive BodyPart where
  | text (s : List Nat) : BodyPart
  | binary (b : List Nat) : BodyPart
  | multipart (parts : List MimePart) : BodyPart
inductive MimePart where
  | mk (headers : List (String × HeaderType)) (contents : BodyPart) : MimePart
end

/-- External collaborators of the writer, kept abstract (the theorems hold
for every instantiation): make_boundary is impure in the source (it hashes
the wall clock, the hostname and a thread-local counter) and is modelled as
an indexed supply of boundary tokens consumed left to right, its de-facto
uniqueness becoming an injectivity hypothesis where needed; rfc2047_encode
is declared by crate::encoders::encode whose file is not under src/ and only
contributes opaque header bytes plus a reported count; dateRfc2822 stands
for the chrono crate's Utc.timestamp_opt / to_rfc2822 rendering used by
Date::write_header, none meaning a non-single instant. -/
structure Collab where
  make_boundary : Nat → String
  rfc2047_encode : String → List Nat × Nat
  dateRfc2822 : Int → Option String

/-- Embedding of the Header trait dispatch (impl Header for HeaderType):
every variant uses the embedded writer of its header file under
src/headers/; the Text and Address writers can panic (Text::write_header on
a Base64-selected value at bytes_written at or past 76, Address on
malformed nesting), so the dispatch returns none there. -/
def HeaderType.write_header (C : Collab) (hv : HeaderType) (bw : Nat) : Option (List Nat) :=
  match hv with
  | .contentType ct => some (ContentType.write_header C.rfc2047_encode ct bw)
  | .raw r => some (Raw.write_header r bw)
  | .text t => Text.write_header t bw
  | .address a => Address.write_header C.rfc2047_encode a bw
  | .date d => some (Date.write_header C.dateRfc2822 d)
  | .messageId ids => some (MessageId.write_header ids bw)
  | .url urls => some (URL.write_header urls bw)

/-- One output event of the writer: an opening boundary delimiter, a closing
boundary delimiter, a header name followed by a colon and space, or plain
bytes.  The flat byte stream is recovered by Ev.render. -/
inductive Ev where
  | openDelim (b : String) : Ev
  | closeDelim (b : String) : Ev
  | hdrName (nm : String) : Ev
  | bytes (bs : List Nat) : Ev
deriving DecidableEq

/-- Bytes of one output event. -/
def Ev.render : Ev → List Nat
  | .openDelim b => strBytes "\r\n--" ++ strBytes b ++ strBytes "\r\n"
  | .closeDelim b => strBytes "\r\n--" ++ strBytes b ++ strBytes "--\r\n"
  | .hdrName nm => strBytes nm ++ strBytes ": "
  | .bytes bs => bs

/-- The boundary delimiter written at the top of the writer loop when a
boundary is active. -/
def delimEvs : Option String → List Ev
  | some b => [Ev.openDelim b]
  | none => []

/-- The closing delimiter written when a sibling iterator is exhausted. -/
def closeEvs : Option String → List Ev
  | some b => [Ev.closeDelim b]
  | none => []

/-- The is_attachment scan of the Text branch of write_part: the flag is
set at the first Content-Disposition header whose value is a content-type
value, from its is_attachment. -/
def isAttachHdrs : List (String × HeaderType) → Bool → Bool
  | [], acc => acc
  | (nm, hv) :: rest, acc =>
    isAttachHdrs rest
      (if acc = false ∧ nm = "Content-Disposition" then
        (hv.as_content_type.map ContentType.is_attachment).getD false
      else acc)

/-- The is_text / is_attachment scan of the Binary branch of write_part. -/
def binFlags : List (String × HeaderType) → Bool → Bool → Bool × Bool
  | [], t, a => (t, a)
  | (nm, hv) :: rest, t, a =>
    if t = false ∧ nm = "Content-Type" then
      binFlags rest ((hv.as_content_type.map ContentType.is_text).getD false) a
    else if a = false ∧ nm = "Content-Disposition" then
      binFlags rest t ((hv.as_content_type.map ContentType.is_attachment).getD false)
    else binFlags rest t a

/-- The header-emission loop shared by the Text and Binary branches: every
header is written as its name, a colon and space, then its value via the
Header trait; a panicking value writer aborts the run (none). -/
def hdrEvs (C : Collab) : List (String × HeaderType) → Option (List Ev)
  | [] => some []
  | (nm, hv) :: rest =>
    match HeaderType.write_header C hv (nm.length + 2) with
    | some bs =>
      (match hdrEvs C rest with
       | some evs => some (Ev.hdrName nm :: Ev.bytes bs :: evs)
       | none => none)
    | none => none

/-- The 7bit body passthrough of detect_encoding: a bare LF not preceded by
CR gets a CR inserted; prev_ch is updated at every byte. -/
def sevenBitLoop : List Nat → Nat → List Nat
  | [], _ => []
  | ch :: rest, prev =>
    (if ch = 10 ∧ prev ≠ 13 then [13, ch] else [ch]) ++ sevenBitLoop rest ch

/-- Embedding of detect_encoding (src/mime.rs): pick the transfer encoding
with the spec-modelled selector, emit the Content-Transfer-Encoding header,
a blank line, and the encoded body. -/
def detect_encoding (input : List Nat) (is_body : Bool) : List Ev :=
  match get_encoding_type_spec input false is_body with
  | EncodingType.base64 =>
    [Ev.bytes (strBytes "Content-Transfer-Encoding: base64\r\n\r\n"),
     Ev.bytes (base64_encode_mime input false)]
  | EncodingType.quotedPrintable _ =>
    [Ev.bytes (strBytes "Content-Transfer-Encoding: quoted-printable\r\n\r\n"),
     Ev.bytes (quoted_printable_encode input is_body)]
  | EncodingType.none =>
    [Ev.bytes (strBytes "Content-Transfer-Encoding: 7bit\r\n\r\n"),
     Ev.bytes (if is_body then sevenBitLoop input 0 else input)]

/-- Output events of the BodyPart::Text branch of write_part; none when a
header value writer panics. -/
def textPartEvs (C : Collab) (hdrs : List (String × HeaderType)) (s : List Nat) :
    Option (List Ev) :=
  match hdrEvs C hdrs with
  | some hevs => some (hevs ++ detect_encoding s (!(isAttachHdrs hdrs false)))
  | none => none

/-- Output events of the BodyPart::Binary branch of write_part; none when a
header value writer panics. -/
def binPartEvs (C : Collab) (hdrs : List (String × HeaderType)) (bts : List Nat) :
    Option (List Ev) :=
  match hdrEvs C hdrs with
  | some hevs =>
    some (hevs ++
      (let f := binFlags hdrs false false
       if f.1 = false then
         [Ev.bytes (strBytes "Content-Transfer-Encoding: base64\r\n\r\n"),
          Ev.bytes (base64_encode_mime bts false)]
       else detect_encoding bts (!f.2)))
  | none => none

/-- Position of the first attribute whose key is boundary, case
insensitively. -/
def findBoundaryAttr (attrs : List (String × String)) : Option Nat :=
  attrs.findIdx? (fun kv => eqIgnoreCase kv.1 "boundary")

/-- The boundary parsed out of a raw Content-Type string, mirroring
raw.raw.find("boundary=\"") followed by split('"').nth(1). -/
def rawBoundary (r : String) : Option (Option String) :=
  match strFind r "boundary=\"" with
  | some pos =>
    some (match (splitOnChar '"' (r.data.drop pos)).get? 1 with
          | some bchars => some (String.mk bchars)
          | none => none)
  | none => none

/-- The header loop of the Multipart branch of write_part.  The accumulator
bnd plays the role of found_ct and of the resolved boundary at once (in the
source found_ct is set exactly when boundary is assigned Some).  Returns
none on a panic: the first Content-Type-named header has a value that is
neither ContentType nor Raw, or a generically written header value's own
writer panics. -/
def mpHdrLoop (C : Collab) : List (String × HeaderType) → Option String → Nat →
    Option (List Ev × Option String × Nat)
  | [], bnd, n => some ([], bnd, n)
  | (nm, hv) :: rest, bnd, n =>
    if bnd = none ∧ eqIgnoreCase nm "Content-Type" = true then
      match hv with
      | .contentType ct =>
        let resolved :=
          match findBoundaryAttr ct.attributes with
          | some pos => (ct.attributes, pos, n)
          | none => (ct.attributes ++ [("boundary", C.make_boundary n)], ct.attributes.length, n + 1)
        let ctBytes := ContentType.write_header C.rfc2047_encode
          { c_type := ct.c_type, attributes := resolved.1 } 14
        let bval := (resolved.1.getD resolved.2.1 ("", "")).2
        (match mpHdrLoop C rest (some bval) resolved.2.2 with
         | some (evs, bnd', n') => some (Ev.hdrName nm :: Ev.bytes ctBytes :: evs, bnd', n')
         | none => none)
      | .raw r =>
        let resolved : List Ev × String × Nat :=
          match rawBoundary r with
          | some (some b) => ([], b, n)
          | some none => ([], C.make_boundary n, n + 1)
          | none =>
            ([Ev.bytes (strBytes r ++ strBytes "; boundary=\"" ++
               strBytes (C.make_boundary n) ++ strBytes "\"\r\n")],
             C.make_boundary n, n + 1)
        (match mpHdrLoop C rest (some resolved.2.1) resolved.2.2 with
         | some (evs, bnd', n') => some (Ev.hdrName nm :: (resolved.1 ++ evs), bnd', n')
         | none => none)
      | _ => none
    else
      match HeaderType.write_header C hv (nm.length + 2) with
      | some bs =>
        (match mpHdrLoop C rest bnd n with
         | some (evs, bnd', n') => some (Ev.hdrName nm :: Ev.bytes bs :: evs, bnd', n')
         | none => none)
      | none => none

/-- The full header handling of the Multipart branch: run the loop and, when
no Content-Type header was found, synthesize a multipart/mixed one with a
fresh boundary.  Returns the events, the resolved boundary and the new
counter. -/
def mpHeaders (C : Collab) (hdrs : List (String × HeaderType)) (n : Nat) :
    Option (List Ev × String × Nat) :=
  match mpHdrLoop C hdrs none n with
  | none => none
  | some (evs, some b, n') => some (evs, b, n')
  | some (evs, none, n') =>
    some (evs ++
      [Ev.hdrName "Content-Type",
       Ev.bytes (ContentType.write_header C.rfc2047_encode
         { c_type := "multipart/mixed", attributes := [("boundary", C.make_boundary n')] } 14)],
      C.make_boundary n', n' + 1)

/-- One suspended frame of the iterative writer: the remaining sibling
iterator and the boundary active for it. -/
abbrev Frame := List MimePart × Option String

mutual
def MimePart.size : MimePart → Nat
  | .mk _ c => 1 + BodyPart.size c
def BodyPart.size : BodyPart → Nat
  | .text _ => 0
  | .binary _ => 0
  | .multipart cs => partsSize cs
def partsSize : List MimePart → Nat
  | [] => 0
  | p :: ps => MimePart.size p + partsSize ps
end

/-- Total size of the parts held in the suspended stack frames. -/
def stackSize (st : List Frame) : Nat := (st.map (fun f => partsSize f.1)).sum

/-- Embedding of the iterative loop of MimePart::write_part: an explicit
stack of suspended (sibling iterator, boundary) frames, an active boundary,
and the boundary-counter n.  Returns none exactly when the panic branch of
the Multipart header handling is reached. -/
def writeLoop (C : Collab) : List MimePart → List Frame → Option String → Nat → Option (List Ev)
  | .mk hdrs (.text s) :: it, stack, bnd, n =>
    (match textPartEvs C hdrs s with
     | some pevs =>
       (match writeLoop C it stack bnd n with
        | some evs => some (delimEvs bnd ++ pevs ++ evs)
        | none => none)
     | none => none)
  | .mk hdrs (.binary bts) :: it, stack, bnd, n =>
    (match binPartEvs C hdrs bts with
     | some pevs =>
       (match writeLoop C it stack bnd n with
        | some evs => some (delimEvs bnd ++ pevs ++ evs)
        | none => none)
     | none => none)
  | .mk hdrs (.multipart cs) :: it, stack, bnd, n =>
    let stack' := if bnd.isSome then (it, bnd) :: stack else stack
    (match mpHeaders C hdrs n with
     | some (hEvs, b, n1) =>
       (match writeLoop C cs stack' (some b) n1 with
        | some evs => some (delimEvs bnd ++ hEvs ++ [Ev.bytes [13, 10]] ++ evs)
        | none => none)
     | none => none)
  | [], (it', bnd') :: st, bnd, n =>
    (match writeLoop C it' st bnd' n with
     | some evs => some (closeEvs bnd ++ evs)
     | none => none)
  | [], [], bnd, _ => some (closeEvs bnd)
termination_by it stack _ _ => (partsSize it + stackSize stack, stack.length)
decreasing_by
  · apply Prod.Lex.left
    simp [partsSize, MimePart.size]
    try omega
  · apply Prod.Lex.left
    simp [partsSize, MimePart.size]
    try omega
  · rcases bnd with _ | b
    · apply Prod.Lex.left
      simp [partsSize, MimePart.size, BodyPart.size, stackSize]
      try omega
    · apply Prod.Lex.left
      simp [partsSize, MimePart.size, BodyPart.size, stackSize]
      try omega
  · apply Prod.Lex.right'
    · simp [partsSize, stackSize]
    · simp

/-- Embedding of MimePart::write_part: start with the single root part, an
empty stack and no active boundary. -/
def write_part (C : Collab) (p : MimePart) (n : Nat) : Option (List Ev) :=
  writeLoop C [p] [] none n

/-- The flat byte stream of write_part (rendering every event). -/
def write_part_bytes (C : Collab) (p : MimePart) (n : Nat) : Option (List Nat) :=
  (write_part C p n).map (fun evs => (evs.map Ev.render).flatten)

/-! ## Recursive characterization of the writer (the specification side of
the iterative-equals-recursive theorem), and trace analysis functions -/

mutual
/-- Recursive trace of one part: a text or binary part contributes its
headers and encoded body; a multipart part contributes its resolved headers,
a blank line, its children each preceded by an opening delimiter of the
part's own boundary, and one closing delimiter of that boundary. -/
def partTraceSpec (C : Collab) : MimePart → Nat → Option (List Ev × Nat)
  | .mk hdrs (.text s), n =>
    (match textPartEvs C hdrs s with
     | some pevs => some (pevs, n)
     | none => none)
  | .mk hdrs (.binary bts), n =>
    (match binPartEvs C hdrs bts with
     | some pevs => some (pevs, n)
     | none => none)
  | .mk hdrs (.multipart cs), n =>
    match mpHeaders C hdrs n with
    | some (hEvs, b, n1) =>
      (match sibsSpec C cs b n1 with
       | some (cEvs, n2) => some (hEvs ++ [Ev.bytes [13, 10]] ++ cEvs ++ [Ev.closeDelim b], n2)
       | none => none)
    | none => none
/-- Recursive trace of a sibling list under an active boundary b: each
sibling is preceded by the opening delimiter of b. -/
def sibsSpec (C : Collab) : List MimePart → String → Nat → Option (List Ev × Nat)
  | [], _, n => some ([], n)
  | p :: ps, b, n =>
    match partTraceSpec C p n with
    | some (evs, n1) =>
      (match sibsSpec C ps b n1 with
       | some (evs2, n2) => some (Ev.openDelim b :: (evs ++ evs2), n2)
       | none => none)
    | none => none
end

/-- Recursive trace of a sibling list processed with no active boundary: no
delimiters are emitted, and at the first multipart sibling the remaining
siblings are discarded (as the iterative loop does, since it pushes no frame
when no boundary is active). -/
def nbSpec (C : Collab) : List MimePart → Nat → Option (List Ev × Nat)
  | [], n => some ([], n)
  | .mk hdrs (.text s) :: ps, n =>
    (match textPartEvs C hdrs s with
     | some pevs =>
       (match nbSpec C ps n with
        | some (evs, n') => some (pevs ++ evs, n')
        | none => none)
     | none => none)
  | .mk hdrs (.binary bts) :: ps, n =>
    (match binPartEvs C hdrs bts with
     | some pevs =>
       (match nbSpec C ps n with
        | some (evs, n') => some (pevs ++ evs, n')
        | none => none)
     | none => none)
  | .mk hdrs (.multipart cs) :: _, n =>
    match mpHeaders C hdrs n with
    | some (hEvs, b, n1) =>
      (match sibsSpec C cs b n1 with
       | some (cEvs, n2) => some (hEvs ++ [Ev.bytes [13, 10]] ++ cEvs ++ [Ev.closeDelim b], n2)
       | none => none)
    | none => none

/-- Recursive trace of resuming the suspended stack frames in order. -/
def resumeSpec (C : Collab) : List Frame → Nat → Option (List Ev)
  | [], _ => some []
  | (it', some b') :: st, n =>
    match sibsSpec C it' b' n with
    | some (evs, n') =>
      (match resumeSpec C st n' with
       | some rest => some (evs ++ Ev.closeDelim b' :: rest)
       | none => none)
    | none => none
  | (it', none) :: st, n =>
    match nbSpec C it' n with
    | some (evs, n') =>
      (match resumeSpec C st n' with
       | some rest => some (evs ++ rest)
       | none => none)
    | none => none

/-- Labels of the closing delimiters of a trace, in order of emission:
exactly one per multipart node of the tree. -/
def closeLabels (evs : List Ev) : List String :=
  evs.filterMap (fun e => match e with | .closeDelim b => some b | _ => none)

/-- Labels of the opening delimiters of a trace, in order of emission: one
per child of each multipart node. -/
def openLabels (evs : List Ev) : List String :=
  evs.filterMap (fun e => match e with | .openDelim b => some b | _ => none)

/-- Number of opening boundary delimiters in a trace. -/
def openDelimCount (evs : List Ev) : Nat := (openLabels evs).length

/-- Number of Content-Type header lines of a trace (header-name events whose
name matches Content-Type case-insensitively). -/
def ctNameCount (evs : List Ev) : Nat :=
  evs.countP (fun e => match e with | .hdrName nm => eqIgnoreCase nm "Content-Type" | _ => false)

/-- Number of Content-Type entries of a header list (case-insensitive). -/
def ctEntries (hdrs : List (String × HeaderType)) : Nat :=
  hdrs.countP (fun h => eqIgnoreCase h.1 "Content-Type")

/-- The caller-supplied boundary of a header list, when one exists: the
value resolved by the Multipart branch without consuming the generator (a
boundary attribute of the first Content-Type value, or a boundary="..."
substring of the first raw Content-Type). -/
def ctCallerB : List (String × HeaderType) → Option String
  | [] => none
  | (nm, hv) :: rest =>
    if eqIgnoreCase nm "Content-Type" = true then
      match hv with
      | .contentType ct =>
        (match findBoundaryAttr ct.attributes with
         | some pos => some ((ct.attributes.getD pos ("", "")).2)
         | none => none)
      | .raw r =>
        (match rawBoundary r with
         | some (some b) => some b
         | _ => none)
      | _ => none
    else ctCallerB rest

mutual
/-- All caller-supplied boundaries of a tree, in traversal order. -/
def callerBs : MimePart → List String
  | .mk hdrs (.multipart cs) => (ctCallerB hdrs).toList ++ callerBsList cs
  | .mk _ (.text _) => []
  | .mk _ (.binary _) => []
/-- All caller-supplied boundaries of a list of trees. -/
def callerBsList : List MimePart → List String
  | [] => []
  | p :: ps => callerBs p ++ callerBsList ps
end

/-- Whether the first Content-Type-named header of a header list has a value
that is neither a ContentType value nor a Raw value (the panic branch of the
Multipart case). -/
def badCT : List (String × HeaderType) → Bool
  | [] => false
  | (nm, hv) :: rest =>
    if eqIgnoreCase nm "Content-Type" = true then
      match hv with
      | .contentType _ => false
      | .raw _ => false
      | _ => true
    else badCT rest

mutual
/-- Whether some multipart node of the tree triggers the panic branch. -/
def hasBad : MimePart → Bool
  | .mk hdrs (.multipart cs) => badCT hdrs || hasBadList cs
  | .mk _ (.text _) => false
  | .mk _ (.binary _) => false
/-- Whether some multipart node of a list of trees triggers the panic branch. -/
def hasBadList : List MimePart → Bool
  | [] => false
  | p :: ps => hasBad p || hasBadList ps
end

/-- Whether the Multipart header loop aborts on this header list: the first
Content-Type-named entry (found tracks found_ct) has a value that is neither
ContentType nor Raw, or some generically written value's writer panics. -/
def mpHdrsFailB (C : Collab) : List (String × HeaderType) → Bool → Bool
  | [], _ => false
  | (nm, hv) :: rest, found =>
    if found = false ∧ eqIgnoreCase nm "Content-Type" = true then
      match hv with
      | .contentType _ => mpHdrsFailB C rest true
      | .raw _ => mpHdrsFailB C rest true
      | _ => true
    else (HeaderType.write_header C hv (nm.length + 2)).isNone || mpHdrsFailB C rest found

mutual
/-- Whether serializing the tree aborts: a text or binary part whose header
emission panics, or a multipart node whose header handling panics (bad first
Content-Type or a panicking generic header write), or an aborting child. -/
def hasAbort (C : Collab) : MimePart → Bool
  | .mk hdrs (.text _) => (hdrEvs C hdrs).isNone
  | .mk hdrs (.binary _) => (hdrEvs C hdrs).isNone
  | .mk hdrs (.multipart cs) => mpHdrsFailB C hdrs false || hasAbortList C cs
/-- Whether serializing some tree of the list aborts. -/
def hasAbortList (C : Collab) : List MimePart → Bool
  | [] => false
  | p :: ps => hasAbort C p || hasAbortList C ps
end

/-- The nesting checker of a trace: a stack of boundary labels, where an
opening delimiter equal to the innermost label is a sibling separator, a
new opening delimiter starts a deeper level, and a closing delimiter must
close the innermost level when its label is on the stack at all (a closing
delimiter of a label never opened — a childless multipart — is passed
over).  A run from and back to the empty stack certifies that every opened
boundary is closed at the same nesting depth it was opened at. -/
def nestRun : List Ev → List String → Option (List String)
  | [], st => some st
  | Ev.openDelim b :: rest, st =>
    (match st with
     | top :: _ => if b = top then nestRun rest st else nestRun rest (b :: st)
     | [] => nestRun rest [b])
  | Ev.closeDelim b :: rest, st =>
    (match st with
     | top :: st' =>
       if b = top then nestRun rest st'
       else if b ∈ st then none else nestRun rest st
     | [] => nestRun rest st)
  | _ :: rest, st => nestRun rest st

/-! ## Concrete instantiations used by counterexamples and witnesses -/

/-- A concrete collaborator instantiation: the boundary supply returns the
string of k letters a for index k (injective), rfc2047_encode passes the
value bytes through, and the date renderer renders nothing. -/
def collab0 : Collab :=
  { make_boundary := fun k => String.mk (List.replicate k 'a')
    rfc2047_encode := fun s => (strBytes s, s.length)
    dateRfc2822 := fun _ => none }

/-- A text/plain leaf part with body a. -/
def leafA : MimePart :=
  .mk [("Content-Type", .contentType { c_type := "text/plain", attributes := [("charset", "utf-8")] })]
    (.text (strBytes "a"))

/-- A multipart Content-Type value carrying the caller-supplied boundary X. -/
def ctvX : ContentType :=
  { c_type := "multipart/mixed", attributes := [("boundary", "X")] }

/-- Nested multiparts both carrying the same caller-supplied boundary X. -/
def treeDupX : MimePart :=
  .mk [("Content-Type", .contentType ctvX)]
    (.multipart [.mk [("Content-Type", .contentType ctvX)] (.multipart [leafA])])

/-- A multipart with boundary B and a single child. -/
def treeOneChild : MimePart :=
  .mk [("Content-Type", .contentType { c_type := "multipart/mixed", attributes := [("boundary", "B")] })]
    (.multipart [leafA])

/-- A multipart whose first Content-Type header is a ContentType value and
whose second Content-Type header is a Text value. -/
def treeSecondCT : MimePart :=
  .mk [("Content-Type", .contentType ctvX), ("Content-Type", .text (strBytes "x"))]
    (.multipart [leafA])

/-- A multipart whose first Content-Type header is a Text value (the panic
case). -/
def treeBadCT : MimePart :=
  .mk [("Content-Type", .text (strBytes "x"))] (.multipart [leafA])

/-- A text part with no headers at all. -/
def treeBareText : MimePart := .mk [] (.text [97])

/-- A two-level multipart tree with no caller-supplied boundaries. -/
def treeGen : MimePart :=
  .mk [("Content-Type", .contentType { c_type := "multipart/mixed", attributes := [] })]
    (.multipart [leafA, .mk [] (.multipart [leafA])])

/-- The recursive characterization of one iterative-loop configuration:
the remaining siblings under the active boundary, then the closing delimiter
of that boundary, then the resumed stack frames. -/
def loopSpec (C : Collab) (it : List MimePart) (stack : List Frame)
    (bnd : Option String) (n : Nat) : Option (List Ev) :=
  match bnd with
  | some b =>
    (match sibsSpec C it b n with
     | some (evs, n') =>
       (match resumeSpec C stack n' with
        | some rest => some (evs ++ Ev.closeDelim b :: rest)
        | none => none)
     | none => none)
  | none =>
    (match nbSpec C it n with
     | some (evs, n') =>
       (match resumeSpec C stack n' with
        | some rest => some (evs ++ rest)
        | none => none)
     | none => none)

/-- The boundary-label invariant of a trace segment: the counter only grows,
every close-delimiter label is caller-supplied or freshly generated in the
consumed counter range, every open-delimiter label is in the allowed set or
closed within the segment, and the close labels are pairwise distinct
whenever the caller-supplied labels are distinct and disjoint from the
generator range. -/
def BndInv (C : Collab) (caller extra : List String) (n n' : Nat) (evs : List Ev) : Prop :=
  n ≤ n' ∧
  (∀ s ∈ closeLabels evs, s ∈ caller ∨ ∃ k, n ≤ k ∧ k < n' ∧ s = C.make_boundary k) ∧
  (∀ s ∈ openLabels evs, s ∈ extra ∨ s ∈ closeLabels evs) ∧
  (Function.Injective C.make_boundary → caller.Nodup →
    (∀ s ∈ caller, ∀ k, C.make_boundary k ≠ s) → (closeLabels evs).Nodup)

/-- The header list of a MIME part. -/
def MimePart.headersOf : MimePart → List (String × HeaderType)
  | .mk h _ => h

/-- Whether some header of the list is named Content-Type (case-insensitive)
with a value that is neither a ContentType value nor a Raw value. -/
def hasBadCTNamed (hdrs : List (String × HeaderType)) : Bool :=
  hdrs.any (fun h => eqIgnoreCase h.1 "Content-Type" &&
    (match h.2 with
     | HeaderType.contentType _ => false
     | HeaderType.raw _ => false
     | _ => true))

/-- Whether the event list starts with the opening delimiter of boundary b. -/
def headIsOpen (b : String) : List Ev → Bool
  | Ev.openDelim b' :: _ => b' == b
  | _ => false

/-- The concrete trace of treeGen under collab0. -/
def genEvs : List Ev := ((partTraceSpec collab0 treeGen 0).map Prod.fst).getD []

/-! ## Theorems: line-length analysis of the encoders -/

theorem hexDig_ge (d : Nat) : 48 ≤ hexDig d := by
  unfold hexDig
  split <;> omega

theorem lineLens_cons10 (rest : List Nat) (cur : Nat) :
    lineLens (10 :: rest) cur = cur :: lineLens rest 0 := by
  simp [lineLens]

theorem lineLens_cons13 (rest : List Nat) (cur : Nat) :
    lineLens (13 :: rest) cur = lineLens rest cur := by
  simp [lineLens]

theorem lineLens_cons_other (a : Nat) (rest : List Nat) (cur : Nat)
    (h10 : a ≠ 10) (h13 : a ≠ 13) :
    lineLens (a :: rest) cur = lineLens rest (cur + 1) := by
  rw [lineLens]
  rw [if_neg h10, if_neg h13]

theorem lineLens_softbreak (rest : List Nat) (cur : Nat) :
    lineLens (61 :: 13 :: 10 :: rest) cur = (cur + 1) :: lineLens rest 0 := by
  rw [lineLens_cons_other 61 _ cur (by omega) (by omega), lineLens_cons13, lineLens_cons10]

theorem lineLens_hexEsc (ch : Nat) (rest : List Nat) (cur : Nat) :
    lineLens (hexEsc ch ++ rest) cur = lineLens rest (cur + 3) := by
  have h1 := hexDig_ge (ch / 16)
  have h2 := hexDig_ge (ch % 16)
  rw [hexEsc]
  rw [List.cons_append, List.cons_append, List.cons_append, List.nil_append]
  rw [lineLens_cons_other 61 _ cur (by omega) (by omega)]
  rw [lineLens_cons_other _ _ _ (by omega) (by omega)]
  rw [lineLens_cons_other _ _ _ (by omega) (by omega)]

theorem qpBodyLoop_lines (input : List Nat) : ∀ prev bw cur, cur ≤ bw → bw ≤ 76 →
    ∀ l ∈ lineLens (qpBodyLoop input prev bw) cur, l ≤ 77 := by
  induction input with
  | nil =>
    intro prev bw cur h1 h2 l hl
    simp [qpBodyLoop, lineLens] at hl
    omega
  | cons ch rest ih =>
    intro prev bw cur h1 h2 l hl
    rw [qpBodyLoop] at hl
    by_cases hesc : ch = 61 ∨ 127 ≤ ch ∨ qpTrailingWs ch rest = true
    · rw [if_pos hesc] at hl
      by_cases hwrap : bw + 3 > 76
      · rw [if_pos hwrap] at hl
        rw [show ([61, 13, 10] ++ hexEsc ch ++ qpBodyLoop rest prev 3 : List Nat) =
          61 :: 13 :: 10 :: (hexEsc ch ++ qpBodyLoop rest prev 3) from rfl] at hl
        rw [lineLens_softbreak, lineLens_hexEsc] at hl
        rcases List.mem_cons.mp hl with h | h
        · omega
        · exact ih prev 3 (0 + 3) (by omega) (by omega) l h
      · rw [if_neg hwrap, lineLens_hexEsc] at hl
        exact ih prev (bw + 3) (cur + 3) (by omega) (by omega) l hl
    · rw [if_neg hesc] at hl
      by_cases hnl : ch = 10
      · rw [if_pos hnl] at hl
        by_cases hprev : prev ≠ 13
        · rw [if_pos hprev] at hl
          rw [List.cons_append, List.cons_append, List.nil_append,
            lineLens_cons13, lineLens_cons10] at hl
          rcases List.mem_cons.mp hl with h | h
          · omega
          · exact ih prev 0 0 (by omega) (by omega) l h
        · rw [if_neg hprev] at hl
          rw [List.cons_append, List.nil_append, lineLens_cons10] at hl
          rcases List.mem_cons.mp hl with h | h
          · omega
          · exact ih prev 0 0 (by omega) (by omega) l h
      · rw [if_neg hnl] at hl
        by_cases hwrap : bw + 1 > 76
        · rw [if_pos hwrap] at hl
          rw [show ([61, 13, 10] ++ ch :: qpBodyLoop rest ch 1 : List Nat) =
            61 :: 13 :: 10 :: (ch :: qpBodyLoop rest ch 1) from rfl] at hl
          rw [lineLens_softbreak] at hl
          rcases List.mem_cons.mp hl with h | h
          · omega
          · by_cases hcr : ch = 13
            · rw [hcr, lineLens_cons13] at h
              exact ih 13 1 0 (by omega) (by omega) l h
            · rw [lineLens_cons_other ch _ _ hnl hcr] at h
              exact ih ch 1 (0 + 1) (by omega) (by omega) l h
        · rw [if_neg hwrap] at hl
          by_cases hcr : ch = 13
          · rw [hcr, lineLens_cons13] at hl
            exact ih 13 (bw + 1) cur (by omega) (by omega) l hl
          · rw [lineLens_cons_other ch _ _ hnl hcr] at hl
            exact ih ch (bw + 1) (cur + 1) (by omega) (by omega) l hl

theorem qpAttLoop_lines (input : List Nat) : ∀ bw cur, cur ≤ bw → bw ≤ 76 →
    ∀ l ∈ lineLens (qpAttLoop input bw) cur, l ≤ 77 := by
  induction input with
  | nil =>
    intro bw cur h1 h2 l hl
    simp [qpAttLoop, lineLens] at hl
    omega
  | cons ch rest ih =>
    intro bw cur h1 h2 l hl
    rw [qpAttLoop] at hl
    by_cases hesc : ch = 61 ∨ 127 ≤ ch ∨ ch = 13 ∨ ch = 10 ∨ ((ch = 32 ∨ ch = 9) ∧ rest = [])
    · rw [if_pos hesc] at hl
      by_cases hwrap : bw + 3 > 76
      · rw [if_pos hwrap] at hl
        rw [show ([61, 13, 10] ++ hexEsc ch ++ qpAttLoop rest 3 : List Nat) =
          61 :: 13 :: 10 :: (hexEsc ch ++ qpAttLoop rest 3) from rfl] at hl
        rw [lineLens_softbreak, lineLens_hexEsc] at hl
        rcases List.mem_cons.mp hl with h | h
        · omega
        · exact ih 3 (0 + 3) (by omega) (by omega) l h
      · rw [if_neg hwrap, lineLens_hexEsc] at hl
        exact ih (bw + 3) (cur + 3) (by omega) (by omega) l hl
    · rw [if_neg hesc] at hl
      have hnl : ch ≠ 10 := by
        intro h
        exact hesc (Or.inr (Or.inr (Or.inr (Or.inl h))))
      have hcr : ch ≠ 13 := by
        intro h
        exact hesc (Or.inr (Or.inr (Or.inl h)))
      by_cases hwrap : bw + 1 > 76
      · rw [if_pos hwrap] at hl
        rw [show ([61, 13, 10] ++ ch :: qpAttLoop rest 1 : List Nat) =
          61 :: 13 :: 10 :: (ch :: qpAttLoop rest 1) from rfl] at hl
        rw [lineLens_softbreak, lineLens_cons_other ch _ _ hnl hcr] at hl
        rcases List.mem_cons.mp hl with h | h
        · omega
        · exact ih 1 (0 + 1) (by omega) (by omega) l h
      · rw [if_neg hwrap, lineLens_cons_other ch _ _ hnl hcr] at hl
        exact ih (bw + 1) (cur + 1) (by omega) (by omega) l hl

theorem quoted_printable_encode_lines (input : List Nat) (is_body : Bool) :
    ∀ l ∈ lineLens (quoted_printable_encode input is_body) 0, l ≤ 77 := by
  intro l hl
  rw [quoted_printable_encode] at hl
  cases is_body with
  | true =>
    rw [if_pos rfl] at hl
    exact qpBodyLoop_lines input 0 0 0 (by omega) (by omega) l hl
  | false =>
    rw [if_neg (by simp)] at hl
    exact qpAttLoop_lines input 0 0 (by omega) (by omega) l hl

theorem E0_len : E0.length = 256 := by decide
theorem E1_len : E1.length = 256 := by decide
theorem E2_len : E2.length = 256 := by decide

theorem E0_gt13 : ∀ x ∈ E0, 13 < x := by decide
theorem E1_gt13 : ∀ x ∈ E1, 13 < x := by decide
theorem E2_gt13 : ∀ x ∈ E2, 13 < x := by decide

theorem getD_notNl (L : List Nat) (hL : ∀ x ∈ L, 13 < x) (i : Nat) :
    L.getD i 0 ≠ 10 ∧ L.getD i 0 ≠ 13 := by
  by_cases h : i < L.length
  · rw [List.getD_eq_getElem L 0 h]
    have := hL (L[i]) (List.getElem_mem h)
    omega
  · rw [List.getD_eq_default _ _ (by omega)]
    omega

theorem b64group_lineLens (t1 t2 t3 : Nat) (rest : List Nat) (cur : Nat) :
    lineLens (b64group t1 t2 t3 ++ rest) cur = lineLens rest (cur + 4) := by
  have h1 := getD_notNl E0 E0_gt13 t1
  have h2 := getD_notNl E1 E1_gt13 (((t1 &&& 0x03) <<< 4) ||| ((t2 >>> 4) &&& 0x0F))
  have h3 := getD_notNl E1 E1_gt13 (((t2 &&& 0x0F) <<< 2) ||| ((t3 >>> 6) &&& 0x03))
  have h4 := getD_notNl E2 E2_gt13 t3
  rw [b64group]
  rw [List.cons_append, List.cons_append, List.cons_append, List.cons_append, List.nil_append]
  rw [lineLens_cons_other _ _ _ h1.1 h1.2, lineLens_cons_other _ _ _ h2.1 h2.2,
    lineLens_cons_other _ _ _ h3.1 h3.2, lineLens_cons_other _ _ _ h4.1 h4.2]

theorem b64pad1_lineLens (t1 : Nat) (rest : List Nat) (cur : Nat) :
    lineLens (b64pad1 t1 ++ rest) cur = lineLens rest (cur + 4) := by
  have h1 := getD_notNl E0 E0_gt13 t1
  have h2 := getD_notNl E1 E1_gt13 ((t1 &&& 0x03) <<< 4)
  rw [b64pad1]
  rw [List.cons_append, List.cons_append, List.cons_append, List.cons_append, List.nil_append]
  rw [lineLens_cons_other _ _ _ h1.1 h1.2, lineLens_cons_other _ _ _ h2.1 h2.2,
    lineLens_cons_other _ _ _ (by omega) (by omega), lineLens_cons_other _ _ _ (by omega) (by omega)]

theorem b64pad2_lineLens (t1 t2 : Nat) (rest : List Nat) (cur : Nat) :
    lineLens (b64pad2 t1 t2 ++ rest) cur = lineLens rest (cur + 4) := by
  have h1 := getD_notNl E0 E0_gt13 t1
  have h2 := getD_notNl E1 E1_gt13 (((t1 &&& 0x03) <<< 4) ||| ((t2 >>> 4) &&& 0x0F))
  have h3 := getD_notNl E2 E2_gt13 ((t2 &&& 0x0F) <<< 2)
  rw [b64pad2]
  rw [List.cons_append, List.cons_append, List.cons_append, List.cons_append, List.nil_append]
  rw [lineLens_cons_other _ _ _ h1.1 h1.2, lineLens_cons_other _ _ _ h2.1 h2.2,
    lineLens_cons_other _ _ _ h3.1 h3.2, lineLens_cons_other _ _ _ (by omega) (by omega)]

theorem mod76_of (x : Nat) (h19 : x % 19 = 0) (h4 : x % 4 = 0) : x % 76 = 0 := by
  obtain ⟨a, ha⟩ := Nat.dvd_of_mod_eq_zero h19
  omega

theorem mod19_of76 (x : Nat) (h : x % 76 = 0) : x % 19 = 0 := by
  obtain ⟨a, ha⟩ := Nat.dvd_of_mod_eq_zero h
  omega

theorem b64loop_lines (input : List Nat) : ∀ bw cur, bw % 4 = 0 → cur = bw % 76 →
    ∀ l ∈ lineLens (b64loop false input bw) cur, l ≤ 76 := by
  induction input using b64flat.induct with
  | case1 t1 t2 t3 rest ih =>
    intro bw cur h4 h76 l hl
    rw [b64loop, List.append_assoc, b64group_lineLens] at hl
    split_ifs at hl with h1
    · rw [List.cons_append, List.cons_append, List.nil_append,
        lineLens_cons13, lineLens_cons10] at hl
      rcases List.mem_cons.mp hl with h | h
      · omega
      · refine ih (bw + 4) 0 (by omega) ?_ l h
        have := mod76_of (bw + 4) h1.2 (by omega)
        omega
    · rw [List.nil_append] at hl
      refine ih (bw + 4) (cur + 4) (by omega) ?_ l hl
      have h72 : bw % 76 ≠ 72 := by
        intro h72
        exact h1 ⟨rfl, mod19_of76 (bw + 4) (by omega)⟩
      omega
  | case2 t1 =>
    intro bw cur h4 h76 l hl
    rw [b64loop, List.append_assoc, b64pad1_lineLens] at hl
    split_ifs at hl with h1 h2 <;> simp [lineLens] at hl <;> omega
  | case3 t1 t2 =>
    intro bw cur h4 h76 l hl
    rw [b64loop, List.append_assoc, b64pad2_lineLens] at hl
    split_ifs at hl with h1 h2 <;> simp [lineLens] at hl <;> omega
  | case4 =>
    intro bw cur h4 h76 l hl
    rw [b64loop] at hl
    split_ifs at hl with h1 <;> simp [lineLens] at hl <;> omega

theorem base64_encode_mime_lines (input : List Nat) :
    ∀ l ∈ lineLens (base64_encode_mime input false) 0, l ≤ 76 := by
  intro l hl
  exact b64loop_lines input 0 0 (by omega) (by omega) l hl

/-! ## Theorems: base64 round-trip decodability -/

theorem b64val_E0 : ∀ t, t < 256 → b64val (E0.getD t 0) = some (t / 4) := by decide
theorem b64val_E1 : ∀ j, j < 64 → b64val (E1.getD j 0) = some j := by decide
theorem b64val_E2 : ∀ t, t < 256 → b64val (E2.getD t 0) = some (t % 64) := by decide

theorem land3_eq (t : Nat) (h : t < 256) : t &&& 3 = t % 4 := by
  revert t h
  decide

theorem land15_eq (t : Nat) (h : t < 256) : t &&& 15 = t % 16 := by
  revert t h
  decide

theorem shr4_land15 (t : Nat) (h : t < 256) : (t >>> 4) &&& 15 = t / 16 := by
  revert t h
  decide

theorem shr6_land3 (t : Nat) (h : t < 256) : (t >>> 6) &&& 3 = t / 64 := by
  revert t h
  decide

theorem shl4_lor : ∀ a, a < 4 → ∀ b, b < 16 → (a <<< 4) ||| b = a * 16 + b := by decide

theorem shl2_lor : ∀ a, a < 16 → ∀ b, b < 4 → (a <<< 2) ||| b = a * 4 + b := by decide

theorem shl4_eq (a : Nat) (ha : a < 4) : a <<< 4 = a * 16 := by
  revert a ha
  decide

theorem shl2_eq (a : Nat) (ha : a < 16) : a <<< 2 = a * 4 := by
  revert a ha
  decide

theorem b64val_ne_61 (c v : Nat) (h : b64val c = some v) : c ≠ 61 := by
  intro hc
  rw [hc] at h
  simp [b64val] at h

/-- The index fed to E1 for the second character of a group. -/
theorem b64idx1 (t1 t2 : Nat) (h1 : t1 < 256) (h2 : t2 < 256) :
    ((t1 &&& 0x03) <<< 4) ||| ((t2 >>> 4) &&& 0x0F) = (t1 % 4) * 16 + t2 / 16 := by
  rw [land3_eq t1 h1, shr4_land15 t2 h2]
  exact shl4_lor (t1 % 4) (by omega) (t2 / 16) (by omega)

/-- The index fed to E1 for the third character of a group. -/
theorem b64idx2 (t2 t3 : Nat) (h2 : t2 < 256) (h3 : t3 < 256) :
    ((t2 &&& 0x0F) <<< 2) ||| ((t3 >>> 6) &&& 0x03) = (t2 % 16) * 4 + t3 / 64 := by
  rw [land15_eq t2 h2, shr6_land3 t3 h3]
  exact shl2_lor (t2 % 16) (by omega) (t3 / 64) (by omega)

theorem b64group_no_crlf (t1 t2 t3 : Nat) : ∀ x ∈ b64group t1 t2 t3, x ≠ 13 ∧ x ≠ 10 := by
  intro x hx
  rw [b64group] at hx
  simp only [List.mem_cons, List.not_mem_nil, or_false] at hx
  rcases hx with h | h | h | h <;> subst h
  · exact ⟨(getD_notNl E0 E0_gt13 _).2, (getD_notNl E0 E0_gt13 _).1⟩
  · exact ⟨(getD_notNl E1 E1_gt13 _).2, (getD_notNl E1 E1_gt13 _).1⟩
  · exact ⟨(getD_notNl E1 E1_gt13 _).2, (getD_notNl E1 E1_gt13 _).1⟩
  · exact ⟨(getD_notNl E2 E2_gt13 _).2, (getD_notNl E2 E2_gt13 _).1⟩

theorem b64pad1_no_crlf (t1 : Nat) : ∀ x ∈ b64pad1 t1, x ≠ 13 ∧ x ≠ 10 := by
  intro x hx
  rw [b64pad1] at hx
  simp only [List.mem_cons, List.not_mem_nil, or_false] at hx
  rcases hx with h | h | h | h <;> subst h
  · exact ⟨(getD_notNl E0 E0_gt13 _).2, (getD_notNl E0 E0_gt13 _).1⟩
  · exact ⟨(getD_notNl E1 E1_gt13 _).2, (getD_notNl E1 E1_gt13 _).1⟩
  · omega
  · omega

theorem b64pad2_no_crlf (t1 t2 : Nat) : ∀ x ∈ b64pad2 t1 t2, x ≠ 13 ∧ x ≠ 10 := by
  intro x hx
  rw [b64pad2] at hx
  simp only [List.mem_cons, List.not_mem_nil, or_false] at hx
  rcases hx with h | h | h | h <;> subst h
  · exact ⟨(getD_notNl E0 E0_gt13 _).2, (getD_notNl E0 E0_gt13 _).1⟩
  · exact ⟨(getD_notNl E1 E1_gt13 _).2, (getD_notNl E1 E1_gt13 _).1⟩
  · exact ⟨(getD_notNl E2 E2_gt13 _).2, (getD_notNl E2 E2_gt13 _).1⟩
  · omega

theorem b64decode_flat (input : List Nat) (hb : ∀ x ∈ input, x < 256) :
    b64decodeGroups (b64flat input) = some input := by
  induction input using b64flat.induct with
  | case1 t1 t2 t3 rest ih =>
    have h1 : t1 < 256 := hb t1 (by simp)
    have h2 : t2 < 256 := hb t2 (by simp)
    have h3 : t3 < 256 := hb t3 (by simp)
    have hv1 := b64val_E0 t1 h1
    have hv2 : b64val (E1.getD (((t1 &&& 0x03) <<< 4) ||| ((t2 >>> 4) &&& 0x0F)) 0) =
        some ((t1 % 4) * 16 + t2 / 16) := by
      rw [b64idx1 t1 t2 h1 h2]
      exact b64val_E1 _ (by omega)
    have hv3 : b64val (E1.getD (((t2 &&& 0x0F) <<< 2) ||| ((t3 >>> 6) &&& 0x03)) 0) =
        some ((t2 % 16) * 4 + t3 / 64) := by
      rw [b64idx2 t2 t3 h2 h3]
      exact b64val_E1 _ (by omega)
    have hv4 := b64val_E2 t3 h3
    have htail := ih (fun x hx => hb x (by simp [hx]))
    rw [b64flat, b64group]
    rw [List.cons_append, List.cons_append, List.cons_append, List.cons_append, List.nil_append]
    rw [b64decodeGroups]
    rw [hv1, hv2]
    simp only []
    rw [if_neg (b64val_ne_61 _ _ hv3)]
    rw [hv3]
    simp only []
    rw [if_neg (b64val_ne_61 _ _ hv4)]
    rw [hv4, htail]
    simp only [Option.some.injEq, List.cons_append, List.nil_append, List.cons.injEq]
    refine ⟨by omega, by omega, by omega, trivial⟩
  | case2 t1 =>
    have h1 : t1 < 256 := hb t1 (by simp)
    have hv1 := b64val_E0 t1 h1
    have hv2 : b64val (E1.getD ((t1 &&& 0x03) <<< 4) 0) = some (t1 % 4 * 16) := by
      rw [land3_eq t1 h1, shl4_eq (t1 % 4) (by omega)]
      exact b64val_E1 _ (by omega)
    rw [b64flat, b64pad1, b64decodeGroups]
    rw [hv1, hv2]
    simp only [if_pos rfl, reduceIte, Option.some.injEq, List.cons.injEq, and_true]
    omega
  | case3 t1 t2 =>
    have h1 : t1 < 256 := hb t1 (by simp)
    have h2 : t2 < 256 := hb t2 (by simp)
    have hv1 := b64val_E0 t1 h1
    have hv2 : b64val (E1.getD (((t1 &&& 0x03) <<< 4) ||| ((t2 >>> 4) &&& 0x0F)) 0) =
        some ((t1 % 4) * 16 + t2 / 16) := by
      rw [b64idx1 t1 t2 h1 h2]
      exact b64val_E1 _ (by omega)
    have hv3 : b64val (E2.getD ((t2 &&& 0x0F) <<< 2) 0) = some (t2 % 16 * 4) := by
      rw [land15_eq t2 h2, shl2_eq (t2 % 16) (by omega)]
      have h := b64val_E2 (t2 % 16 * 4) (by omega)
      rw [Nat.mod_eq_of_lt (show t2 % 16 * 4 < 64 by omega)] at h
      exact h
    rw [b64flat, b64pad2, b64decodeGroups]
    rw [hv1, hv2]
    simp only []
    rw [if_neg (b64val_ne_61 _ _ hv3)]
    rw [hv3]
    simp only [if_pos rfl, reduceIte, Option.some.injEq, List.cons.injEq, and_true]
    constructor
    · omega
    · omega
  | case4 =>
    rw [b64flat, b64decodeGroups]

theorem filter_crlf_pair (l l2 : List Nat) (hl : l = [] ∨ l = [13, 10])
    (hl2 : l2 = [] ∨ l2 = [13, 10]) :
    (l ++ l2).filter (fun c => decide (c ≠ 13 ∧ c ≠ 10)) = [] := by
  rcases hl with h | h <;> rcases hl2 with h2 | h2 <;> subst h <;> subst h2 <;> simp

theorem filter_no_crlf_append (g rest : List Nat) (hg : ∀ x ∈ g, x ≠ 13 ∧ x ≠ 10) :
    (g ++ rest).filter (fun c => decide (c ≠ 13 ∧ c ≠ 10)) =
      g ++ rest.filter (fun c => decide (c ≠ 13 ∧ c ≠ 10)) := by
  rw [List.filter_append]
  congr 1
  rw [List.filter_eq_self]
  intro a ha
  simp [hg a ha]

theorem b64loop_filter (input : List Nat) (is_inline : Bool) : ∀ bw,
    (b64loop is_inline input bw).filter (fun c => decide (c ≠ 13 ∧ c ≠ 10)) = b64flat input := by
  induction input using b64flat.induct with
  | case1 t1 t2 t3 rest ih =>
    intro bw
    rw [b64loop, List.append_assoc, b64flat]
    rw [filter_no_crlf_append _ _ (b64group_no_crlf t1 t2 t3)]
    congr 1
    split_ifs with h1
    · rw [List.cons_append, List.cons_append, List.nil_append]
      rw [List.filter_cons_of_neg (by simp), List.filter_cons_of_neg (by simp)]
      exact ih (bw + 4)
    · rw [List.nil_append]
      exact ih (bw + 4)
  | case2 t1 =>
    intro bw
    rw [b64loop, List.append_assoc, b64flat]
    rw [filter_no_crlf_append _ _ (b64pad1_no_crlf t1)]
    rw [filter_crlf_pair _ _ (by split_ifs <;> simp) (by split_ifs <;> simp)]
    rw [List.append_nil]
  | case3 t1 t2 =>
    intro bw
    rw [b64loop, List.append_assoc, b64flat]
    rw [filter_no_crlf_append _ _ (b64pad2_no_crlf t1 t2)]
    rw [filter_crlf_pair _ _ (by split_ifs <;> simp) (by split_ifs <;> simp)]
    rw [List.append_nil]
  | case4 =>
    intro bw
    rw [b64loop, b64flat]
    split_ifs <;> simp

theorem rfc4648_roundtrip (input : List Nat) (is_inline : Bool) (hb : ∀ x ∈ input, x < 256) :
    rfc4648_decode (base64_encode_mime input is_inline) = some input := by
  rw [rfc4648_decode, base64_encode_mime, b64loop_filter]
  exact b64decode_flat input hb

/-! ## Theorems: the Q encoded-word fold positions (Text::write_header) -/

theorem boundary_not_continuation (ch : Nat) :
    isUtf8Boundary ch = !isContinuationByte ch := by
  rw [isUtf8Boundary, isContinuationByte]
  by_cases h1 : ch < 128 <;> by_cases h2 : 192 ≤ ch <;>
    simp [h1, h2, decide_eq_true_eq] <;> omega

theorem qLoop_folds (pfx : List Nat) (input : List Nat) : ∀ pos0 bw,
    ∀ p ∈ (qLoop pfx input pos0 bw).2,
      pos0 ≤ p ∧ (p = 0 ∨ ∃ ch, input[p - pos0]? = some ch ∧ isUtf8Boundary ch = true) := by
  induction input with
  | nil =>
    intro pos0 bw p hp
    simp [qLoop] at hp
  | cons ch rest ih =>
    intro pos0 bw p hp
    rw [qLoop] at hp
    by_cases hg : 76 ≤ bw ∧ (pos0 = 0 ∨ isUtf8Boundary ch = true)
    · rw [if_pos hg] at hp
      simp only [] at hp
      rcases List.mem_cons.mp hp with h | h
      · subst h
        refine ⟨le_refl _, ?_⟩
        rcases hg.2 with h0 | hb
        · exact Or.inl h0
        · exact Or.inr ⟨ch, by simp, hb⟩
      · obtain ⟨hle, hrest⟩ := ih (pos0 + 1) _ p h
        refine ⟨by omega, ?_⟩
        rcases hrest with h0 | ⟨ch', hget, hbnd⟩
        · exact Or.inl h0
        · refine Or.inr ⟨ch', ?_, hbnd⟩
          rw [show p - pos0 = (p - (pos0 + 1)) + 1 by omega]
          simpa using hget
    · rw [if_neg hg] at hp
      simp only [] at hp
      obtain ⟨hle, hrest⟩ := ih (pos0 + 1) _ p hp
      refine ⟨by omega, ?_⟩
      rcases hrest with h0 | ⟨ch', hget, hbnd⟩
      · exact Or.inl h0
      · refine Or.inr ⟨ch', ?_, hbnd⟩
        rw [show p - pos0 = (p - (pos0 + 1)) + 1 by omega]
        simpa using hget

/-! ## Claim theorems for the encoder claims -/

/-- C2 counterexample: on 77 letters a in body mode, quoted_printable_encode
emits a first line of 77 characters (76 letters plus the soft line break
equals sign), refuting the 76-character bound as stated.  The code's own
test suite contains such a 77-character line for an input of 100 spaces. -/
theorem claim_C2_counterexample :
    ¬(∀ l ∈ lineLens (quoted_printable_encode (List.replicate 77 97) true) 0, l ≤ 76) := by
  intro h
  have h77 : (77 : Nat) ∈ lineLens (quoted_printable_encode (List.replicate 77 97) true) 0 := by
    decide
  have := h 77 h77
  omega

/-- C2 amended: every line of the non-inline base64 encoder is at most 76
characters, and every line of quoted_printable_encode (body or attachment
mode) is at most 77 characters, the 77th being the soft line break; lines
are measured between line-break LFs with CRs not counted. -/
theorem claim_C2_amended :
    (∀ (input : List Nat) (is_body : Bool),
      ∀ l ∈ lineLens (quoted_printable_encode input is_body) 0, l ≤ 77) ∧
    (∀ input : List Nat, ∀ l ∈ lineLens (base64_encode_mime input false) 0, l ≤ 76) :=
  ⟨fun input is_body => quoted_printable_encode_lines input is_body,
   fun input => base64_encode_mime_lines input⟩

/-- C2 witness: the amended bounds applied at concrete inputs. -/
theorem claim_C2_witness :
    (77 : Nat) ∈ lineLens (quoted_printable_encode (List.replicate 77 97) true) 0 ∧ (77 : Nat) ≤ 77 ∧
    (8 : Nat) ∈ lineLens (base64_encode_mime [84, 101, 115, 116] false) 0 ∧ (8 : Nat) ≤ 76 :=
  ⟨by decide, claim_C2_amended.1 (List.replicate 77 97) true 77 (by decide),
   by decide, claim_C2_amended.2 [84, 101, 115, 116] 8 (by decide)⟩

/-- C3: RFC 4648 base64 decoding (discarding inserted CRLF line breaks) of
the output of base64_encode_mime returns exactly the input bytes, in both
inline and non-inline modes. -/
theorem claim_C3 (input : List Nat) (is_inline : Bool) (hb : ∀ x ∈ input, x < 256) :
    rfc4648_decode (base64_encode_mime input is_inline) = some input :=
  rfc4648_roundtrip input is_inline hb

/-- C3 witness: the round trip evaluated on the bytes of "Test" in
non-inline mode (whose encoding is the stream VGVzdA==CRLF). -/
theorem claim_C3_witness :
    (∀ x ∈ [84, 101, 115, 116], x < 256) ∧
    rfc4648_decode (base64_encode_mime [84, 101, 115, 116] false) = some [84, 101, 115, 116] :=
  ⟨by decide, claim_C3 [84, 101, 115, 116] false (by decide)⟩

/-- C6: evaluation at the failing input CR LF LF.  The quoted-printable body
encoder leaves the second LF bare (prev_ch still holds the CR of the first
line ending, since the LF branch never updates it), while the 7bit body
passthrough of detect_encoding normalizes the same input correctly. -/
theorem claim_C6_eval :
    quoted_printable_encode [13, 10, 10] true = [13, 10, 10] ∧
    sevenBitLoop [13, 10, 10] 0 = [13, 10, 13, 10] := by
  constructor <;> decide

/-- C7 counterexample: the plain printable ASCII input a=b (no trailing
whitespace, no byte at or above 127) contains an equals sign and is
nevertheless classified EncodingType.none in non-inline mode, because the
equals-sign branch of get_encoding_type adds 3 to qp_len without setting
needs_encoding. -/
theorem claim_C7_counterexample :
    get_encoding_type [97, 61, 98] false = EncodingType.none := by decide

theorem encLoop_plain (is_inline check997 : Bool) : ∀ (input : List Nat),
    (∀ b ∈ input, 33 ≤ b ∧ b ≤ 126) →
    ∀ st : EncSt, st.needs_encoding = false →
      (encLoop is_inline check997 input st).needs_encoding = false := by
  intro input
  induction input with
  | nil =>
    intro h st hst
    rw [encLoop]
    exact hst
  | cons ch rest ih =>
    intro h st hst
    obtain ⟨h33, h126⟩ := h ch (by simp)
    rw [encLoop]
    refine ih (fun b hb => h b (by simp [hb])) _ ?_
    rw [encStep]
    rw [if_neg (by
      intro hc
      rcases hc with hc | hc
      · omega
      · rcases hc.1 with hc1 | hc1 <;> omega)]
    split_ifs with h1 h2
    all_goals first
      | exact hst
      | omega

/-- C7 amended: a byte equal to the equals sign always adds exactly 3 bytes
to qp_len and leaves needs_encoding unchanged; consequently an input of
plain printable ASCII (all bytes between 33 and 126, hence without trailing
whitespace), even one containing equals signs, is classified
EncodingType.none in every mode. -/
theorem claim_C7_amended :
    (∀ (is_inline check997 : Bool) (rest : List Nat) (st : EncSt),
      (encStep is_inline check997 61 rest st).qp_len = st.qp_len + 3 ∧
      (encStep is_inline check997 61 rest st).needs_encoding = st.needs_encoding) ∧
    (∀ (input : List Nat) (is_inline : Bool), (∀ b ∈ input, 33 ≤ b ∧ b ≤ 126) →
      get_encoding_type input is_inline = EncodingType.none) := by
  constructor
  · intro is_inline check997 rest st
    rw [encStep]
    rw [if_neg (by
      intro hc
      rcases hc with hc | hc
      · omega
      · rcases hc.1 with hc1 | hc1 <;> omega)]
    rw [if_pos (Or.inl rfl)]
    exact ⟨rfl, rfl⟩
  · intro input is_inline h
    have hloop := encLoop_plain is_inline true input h
      { qp_len := if is_inline = false then input.length / 76 else 0
        is_ascii := true
        needs_encoding := false
        line_len := 0 } rfl
    rw [get_encoding_type]
    simp [hloop]

/-- C7 witness: the amended claim applied to the input a=b. -/
theorem claim_C7_witness :
    (∀ b ∈ [97, 61, 98], 33 ≤ b ∧ b ≤ 126) ∧
    get_encoding_type [97, 61, 98] false = EncodingType.none :=
  ⟨by decide, claim_C7_amended.2 [97, 61, 98] false (by decide)⟩

/-- C4: in the inline Q encoded-word path of Text::write_header, every fold
position is either position 0 or lies immediately before a byte that passes
the UTF-8 lead-byte test (the inlined (ch as i8) >= -0x40 check), never
before a continuation byte (two high bits 10). -/
theorem claim_C4 (pfx text : List Nat) (bw : Nat) :
    ∀ p ∈ (qLoop pfx text 0 bw).2,
      p = 0 ∨ ∃ ch, text[p]? = some ch ∧ isUtf8Boundary ch = true ∧
        isContinuationByte ch = false := by
  intro p hp
  obtain ⟨-, h⟩ := qLoop_folds pfx text 0 bw p hp
  rcases h with h0 | ⟨ch, hget, hbnd⟩
  · exact Or.inl h0
  · refine Or.inr ⟨ch, hget, hbnd, ?_⟩
    have := boundary_not_continuation ch
    rw [hbnd] at this
    cases hc : isContinuationByte ch
    · rfl
    · rw [hc] at this
      simp at this

/-- C4 witness: encoding the two bytes of a delta character with 76 bytes
already written folds exactly at position 0 (before the lead byte 0xCE),
which the theorem certifies is a legal fold point. -/
theorem claim_C4_witness :
    (0 : Nat) ∈ (qLoop (strBytes "=?utf-8?Q?") [206, 180] 0 76).2 ∧
    ((0 : Nat) = 0 ∨ ∃ ch, ([206, 180] : List Nat)[(0 : Nat)]? = some ch ∧
      isUtf8Boundary ch = true ∧ isContinuationByte ch = false) :=
  ⟨by decide, claim_C4 (strBytes "=?utf-8?Q?") [206, 180] 76 0 (by decide)⟩

/-- C10: whenever the selector chooses Base64 for a text header and
bytes_written is 76 or more, Text::write_header panics (the chunk size
76 - bytes_written is zero at 76 and underflows beyond it, and slice::chunks
panics on a zero chunk size), modelled as returning none instead of an
io::Result. -/
theorem claim_C10 (text : List Nat) (bw : Nat)
    (hsel : get_encoding_type_spec text true false = EncodingType.base64)
    (hbw : 76 ≤ bw) : Text.write_header text bw = none := by
  rw [Text.write_header, hsel]
  by_cases h : bw ≤ 76
  · rw [if_pos h, if_pos (by omega)]
  · rw [if_neg h]

/-- C10 witness: the two UTF-8 bytes of one high codepoint select Base64
(qp_len 6 is not below base64_len 4), and with bytes_written 76 the writer
panics. -/
theorem claim_C10_witness :
    get_encoding_type_spec [195, 161] true false = EncodingType.base64 ∧
    Text.write_header [195, 161] 76 = none :=
  ⟨by decide, claim_C10 [195, 161] 76 (by decide) (by omega)⟩

theorem resumeSpec_cons (C : Collab) (it' : List MimePart) (bnd' : Option String)
    (st : List Frame) (n : Nat) :
    resumeSpec C ((it', bnd') :: st) n = loopSpec C it' st bnd' n := by
  cases bnd' <;> rfl

theorem closeLabels_append (a b : List Ev) :
    closeLabels (a ++ b) = closeLabels a ++ closeLabels b := by
  simp [closeLabels]

theorem openLabels_append (a b : List Ev) :
    openLabels (a ++ b) = openLabels a ++ openLabels b := by
  simp [openLabels]

theorem getD_append_singleton (l : List (String × String)) (x d : String × String) :
    (l ++ [x]).getD l.length d = x := by
  induction l with
  | nil => rfl
  | cons a as ih => simpa using ih

theorem closeLabels_cons_hdrName (nm : String) (l : List Ev) :
    closeLabels (Ev.hdrName nm :: l) = closeLabels l := rfl

theorem closeLabels_cons_bytes (bs : List Nat) (l : List Ev) :
    closeLabels (Ev.bytes bs :: l) = closeLabels l := rfl

theorem closeLabels_cons_open (b : String) (l : List Ev) :
    closeLabels (Ev.openDelim b :: l) = closeLabels l := rfl

theorem closeLabels_cons_close (b : String) (l : List Ev) :
    closeLabels (Ev.closeDelim b :: l) = b :: closeLabels l := rfl

theorem openLabels_cons_hdrName (nm : String) (l : List Ev) :
    openLabels (Ev.hdrName nm :: l) = openLabels l := rfl

theorem openLabels_cons_bytes (bs : List Nat) (l : List Ev) :
    openLabels (Ev.bytes bs :: l) = openLabels l := rfl

theorem openLabels_cons_open (b : String) (l : List Ev) :
    openLabels (Ev.openDelim b :: l) = b :: openLabels l := rfl

theorem openLabels_cons_close (b : String) (l : List Ev) :
    openLabels (Ev.closeDelim b :: l) = openLabels l := rfl

theorem ctNameCount_cons_hdrName (nm : String) (l : List Ev) :
    ctNameCount (Ev.hdrName nm :: l) =
      ctNameCount l + (if eqIgnoreCase nm "Content-Type" = true then 1 else 0) := by
  simp [ctNameCount, List.countP_cons]

theorem ctNameCount_cons_bytes (bs : List Nat) (l : List Ev) :
    ctNameCount (Ev.bytes bs :: l) = ctNameCount l := by
  simp [ctNameCount, List.countP_cons]

theorem ctNameCount_cons_open (b : String) (l : List Ev) :
    ctNameCount (Ev.openDelim b :: l) = ctNameCount l := by
  simp [ctNameCount, List.countP_cons]

theorem ctNameCount_cons_close (b : String) (l : List Ev) :
    ctNameCount (Ev.closeDelim b :: l) = ctNameCount l := by
  simp [ctNameCount, List.countP_cons]

theorem ctNameCount_append (a b : List Ev) :
    ctNameCount (a ++ b) = ctNameCount a + ctNameCount b := by
  simp [ctNameCount, List.countP_append]

theorem ctEntries_cons (nm : String) (hv : HeaderType) (rest : List (String × HeaderType)) :
    ctEntries ((nm, hv) :: rest) =
      ctEntries rest + (if eqIgnoreCase nm "Content-Type" = true then 1 else 0) := by
  simp [ctEntries, List.countP_cons]

theorem badCT_cons_ct (nm : String) (ct : ContentType) (rest : List (String × HeaderType))
    (hct : eqIgnoreCase nm "Content-Type" = true) :
    badCT ((nm, HeaderType.contentType ct) :: rest) = false := by
  rw [badCT.eq_def]
  simp only []
  rw [if_pos hct]

theorem badCT_cons_raw (nm : String) (r : String) (rest : List (String × HeaderType))
    (hct : eqIgnoreCase nm "Content-Type" = true) :
    badCT ((nm, HeaderType.raw r) :: rest) = false := by
  rw [badCT.eq_def]
  simp only []
  rw [if_pos hct]

theorem badCT_cons_skip (nm : String) (hv : HeaderType) (rest : List (String × HeaderType))
    (hct : eqIgnoreCase nm "Content-Type" = false) :
    badCT ((nm, hv) :: rest) = badCT rest := by
  rw [badCT.eq_def]
  simp only []
  rw [if_neg (by simp [hct])]

theorem ctCallerB_cons_ct (nm : String) (ct : ContentType) (rest : List (String × HeaderType))
    (hct : eqIgnoreCase nm "Content-Type" = true) :
    ctCallerB ((nm, HeaderType.contentType ct) :: rest) =
      (match findBoundaryAttr ct.attributes with
       | some pos => some ((ct.attributes.getD pos ("", "")).2)
       | none => none) := by
  rw [ctCallerB.eq_def]
  simp only []
  rw [if_pos hct]

theorem ctCallerB_cons_raw (nm : String) (r : String) (rest : List (String × HeaderType))
    (hct : eqIgnoreCase nm "Content-Type" = true) :
    ctCallerB ((nm, HeaderType.raw r) :: rest) =
      (match rawBoundary r with
       | some (some b) => some b
       | _ => none) := by
  rw [ctCallerB.eq_def]
  simp only []
  rw [if_pos hct]

theorem ctCallerB_cons_skip (nm : String) (hv : HeaderType) (rest : List (String × HeaderType))
    (hct : eqIgnoreCase nm "Content-Type" = false) :
    ctCallerB ((nm, hv) :: rest) = ctCallerB rest := by
  rw [ctCallerB.eq_def]
  simp only []
  rw [if_neg (by simp [hct])]

/-! ### Step equations for the Multipart header loop with no boundary yet -/

theorem closeLabels_nil : closeLabels [] = [] := rfl

theorem openLabels_nil : openLabels [] = [] := rfl

theorem closeLabels_detect (s : List Nat) (ib : Bool) :
    closeLabels (detect_encoding s ib) = [] := by
  rw [detect_encoding]
  split <;> rfl

theorem openLabels_detect (s : List Nat) (ib : Bool) :
    openLabels (detect_encoding s ib) = [] := by
  rw [detect_encoding]
  split <;> rfl

theorem ctNameCount_detect (s : List Nat) (ib : Bool) :
    ctNameCount (detect_encoding s ib) = 0 := by
  rw [detect_encoding]
  split <;> rfl

theorem mpHdrLoop_cons_ct_found (C : Collab) (nm : String) (ct : ContentType)
    (rest : List (String × HeaderType)) (n pos : Nat)
    (hct : eqIgnoreCase nm "Content-Type" = true)
    (hf : findBoundaryAttr ct.attributes = some pos) :
    mpHdrLoop C ((nm, HeaderType.contentType ct) :: rest) none n =
      match mpHdrLoop C rest (some ((ct.attributes.getD pos ("", "")).2)) n with
      | some (evs, bnd', n') =>
        some (Ev.hdrName nm :: Ev.bytes (ContentType.write_header C.rfc2047_encode
          { c_type := ct.c_type, attributes := ct.attributes } 14) :: evs, bnd', n')
      | none => none := by
  rw [mpHdrLoop.eq_def]
  simp only []
  rw [if_pos ⟨trivial, hct⟩, hf]

theorem mpHdrLoop_cons_ct_nofound (C : Collab) (nm : String) (ct : ContentType)
    (rest : List (String × HeaderType)) (n : Nat)
    (hct : eqIgnoreCase nm "Content-Type" = true)
    (hf : findBoundaryAttr ct.attributes = none) :
    mpHdrLoop C ((nm, HeaderType.contentType ct) :: rest) none n =
      match mpHdrLoop C rest (some (C.make_boundary n)) (n + 1) with
      | some (evs, bnd', n') =>
        some (Ev.hdrName nm :: Ev.bytes (ContentType.write_header C.rfc2047_encode
          { c_type := ct.c_type,
            attributes := ct.attributes ++ [("boundary", C.make_boundary n)] } 14) :: evs, bnd', n')
      | none => none := by
  rw [mpHdrLoop.eq_def]
  simp only []
  rw [if_pos ⟨trivial, hct⟩, hf]
  simp only []
  rw [getD_append_singleton]

theorem mpHdrLoop_cons_raw_found (C : Collab) (nm r : String)
    (rest : List (String × HeaderType)) (n : Nat) (b : String)
    (hct : eqIgnoreCase nm "Content-Type" = true)
    (hr : rawBoundary r = some (some b)) :
    mpHdrLoop C ((nm, HeaderType.raw r) :: rest) none n =
      match mpHdrLoop C rest (some b) n with
      | some (evs, bnd', n') => some (Ev.hdrName nm :: evs, bnd', n')
      | none => none := by
  rw [mpHdrLoop.eq_def]
  simp only []
  rw [if_pos ⟨trivial, hct⟩, hr]
  simp only [List.nil_append]

theorem mpHdrLoop_cons_raw_fresh (C : Collab) (nm r : String)
    (rest : List (String × HeaderType)) (n : Nat)
    (hct : eqIgnoreCase nm "Content-Type" = true)
    (hr : rawBoundary r = some none) :
    mpHdrLoop C ((nm, HeaderType.raw r) :: rest) none n =
      match mpHdrLoop C rest (some (C.make_boundary n)) (n + 1) with
      | some (evs, bnd', n') => some (Ev.hdrName nm :: evs, bnd', n')
      | none => none := by
  rw [mpHdrLoop.eq_def]
  simp only []
  rw [if_pos ⟨trivial, hct⟩, hr]
  simp only [List.nil_append]

theorem mpHdrLoop_cons_raw_nof (C : Collab) (nm r : String)
    (rest : List (String × HeaderType)) (n : Nat)
    (hct : eqIgnoreCase nm "Content-Type" = true)
    (hr : rawBoundary r = none) :
    mpHdrLoop C ((nm, HeaderType.raw r) :: rest) none n =
      match mpHdrLoop C rest (some (C.make_boundary n)) (n + 1) with
      | some (evs, bnd', n') =>
        some (Ev.hdrName nm :: Ev.bytes (strBytes r ++ strBytes "; boundary=\"" ++
          strBytes (C.make_boundary n) ++ strBytes "\"\r\n") :: evs, bnd', n')
      | none => none := by
  rw [mpHdrLoop.eq_def]
  simp only []
  rw [if_pos ⟨trivial, hct⟩, hr]
  simp only [List.singleton_append]

theorem mpHdrLoop_cons_gen (C : Collab) (nm : String) (hv : HeaderType)
    (rest : List (String × HeaderType)) (bnd : Option String) (n : Nat) (bs : List Nat)
    (hcond : ¬ (bnd = none ∧ eqIgnoreCase nm "Content-Type" = true))
    (hw : HeaderType.write_header C hv (nm.length + 2) = some bs) :
    mpHdrLoop C ((nm, hv) :: rest) bnd n =
      match mpHdrLoop C rest bnd n with
      | some (evs, bnd', n') => some (Ev.hdrName nm :: Ev.bytes bs :: evs, bnd', n')
      | none => none := by
  rw [mpHdrLoop.eq_def]
  simp only []
  rw [if_neg hcond, hw]

theorem mpHdrLoop_cons_gen_fail (C : Collab) (nm : String) (hv : HeaderType)
    (rest : List (String × HeaderType)) (bnd : Option String) (n : Nat)
    (hcond : ¬ (bnd = none ∧ eqIgnoreCase nm "Content-Type" = true))
    (hw : HeaderType.write_header C hv (nm.length + 2) = none) :
    mpHdrLoop C ((nm, hv) :: rest) bnd n = none := by
  rw [mpHdrLoop.eq_def]
  simp only []
  rw [if_neg hcond, hw]

theorem mpHdrLoop_cons_other (C : Collab) (nm : String) (hv : HeaderType)
    (rest : List (String × HeaderType)) (n : Nat)
    (hct : eqIgnoreCase nm "Content-Type" = true)
    (hbad : hv.as_content_type = none) (hnr : ∀ r, hv ≠ HeaderType.raw r) :
    mpHdrLoop C ((nm, hv) :: rest) none n = none ∧ badCT ((nm, hv) :: rest) = true := by
  cases hv
  case contentType ct => exact Option.noConfusion hbad
  case raw r => exact absurd rfl (hnr r)
  all_goals
    refine ⟨?_, ?_⟩
    · rw [mpHdrLoop.eq_def]
      simp only []
      rw [if_pos ⟨trivial, hct⟩]
    · rw [badCT.eq_def]
      simp only []
      rw [if_pos hct]

theorem mpHdrsFailB_cons_ct (C : Collab) (nm : String) (ct : ContentType)
    (rest : List (String × HeaderType))
    (hct : eqIgnoreCase nm "Content-Type" = true) :
    mpHdrsFailB C ((nm, HeaderType.contentType ct) :: rest) false = mpHdrsFailB C rest true := by
  rw [mpHdrsFailB.eq_def]
  simp only []
  rw [if_pos ⟨trivial, hct⟩]

theorem mpHdrsFailB_cons_raw (C : Collab) (nm r : String)
    (rest : List (String × HeaderType))
    (hct : eqIgnoreCase nm "Content-Type" = true) :
    mpHdrsFailB C ((nm, HeaderType.raw r) :: rest) false = mpHdrsFailB C rest true := by
  rw [mpHdrsFailB.eq_def]
  simp only []
  rw [if_pos ⟨trivial, hct⟩]

theorem mpHdrsFailB_cons_bad (C : Collab) (nm : String) (hv : HeaderType)
    (rest : List (String × HeaderType))
    (hct : eqIgnoreCase nm "Content-Type" = true)
    (hbad : hv.as_content_type = none) (hnr : ∀ r, hv ≠ HeaderType.raw r) :
    mpHdrsFailB C ((nm, hv) :: rest) false = true := by
  cases hv
  case contentType ct => exact Option.noConfusion hbad
  case raw r => exact absurd rfl (hnr r)
  all_goals
    rw [mpHdrsFailB.eq_def]
    simp only []
    rw [if_pos ⟨trivial, hct⟩]

theorem mpHdrsFailB_cons_gen (C : Collab) (nm : String) (hv : HeaderType)
    (rest : List (String × HeaderType)) (found : Bool)
    (hcond : ¬ (found = false ∧ eqIgnoreCase nm "Content-Type" = true)) :
    mpHdrsFailB C ((nm, hv) :: rest) found =
      ((HeaderType.write_header C hv (nm.length + 2)).isNone || mpHdrsFailB C rest found) := by
  rw [mpHdrsFailB.eq_def]
  simp only []
  rw [if_neg hcond]
theorem mpHdrLoop_fail_iff_ct (C : Collab) (nm : String) (hv : HeaderType)
    (rest : List (String × HeaderType)) (n : Nat)
    (hct : eqIgnoreCase nm "Content-Type" = true)
    (ih : ∀ (bnd : Option String) (n : Nat),
      mpHdrLoop C rest bnd n = none ↔ mpHdrsFailB C rest bnd.isSome = true) :
    (mpHdrLoop C ((nm, hv) :: rest) none n = none ↔
      mpHdrsFailB C ((nm, hv) :: rest) false = true) := by
  cases hv
  case contentType ct =>
    rw [mpHdrsFailB_cons_ct C nm ct rest hct]
    cases hf : findBoundaryAttr ct.attributes with
    | some pos =>
      rw [mpHdrLoop_cons_ct_found C nm ct rest n pos hct hf]
      cases hr : mpHdrLoop C rest (some ((ct.attributes.getD pos ("", "")).2)) n with
      | none =>
        have hfail := (ih _ n).mp hr
        simp only [Option.isSome] at hfail
        simp [hfail]
      | some tr =>
        obtain ⟨evs0, bnd0, n0⟩ := tr
        have hnf : ¬ mpHdrsFailB C rest true = true := fun hb => by
          rw [(ih _ n).mpr (by simpa [Option.isSome] using hb)] at hr
          exact Option.noConfusion hr
        simp [hnf]
    | none =>
      rw [mpHdrLoop_cons_ct_nofound C nm ct rest n hct hf]
      cases hr : mpHdrLoop C rest (some (C.make_boundary n)) (n + 1) with
      | none =>
        have hfail := (ih _ (n + 1)).mp hr
        simp only [Option.isSome] at hfail
        simp [hfail]
      | some tr =>
        obtain ⟨evs0, bnd0, n0⟩ := tr
        have hnf : ¬ mpHdrsFailB C rest true = true := fun hb => by
          rw [(ih _ (n + 1)).mpr (by simpa [Option.isSome] using hb)] at hr
          exact Option.noConfusion hr
        simp [hnf]
  case raw r =>
    rw [mpHdrsFailB_cons_raw C nm r rest hct]
    cases hrb : rawBoundary r with
    | some ob =>
      cases ob with
      | some b =>
        rw [mpHdrLoop_cons_raw_found C nm r rest n b hct hrb]
        cases hr : mpHdrLoop C rest (some b) n with
        | none =>
          have hfail := (ih _ n).mp hr
          simp only [Option.isSome] at hfail
          simp [hfail]
        | some tr =>
          obtain ⟨evs0, bnd0, n0⟩ := tr
          have hnf : ¬ mpHdrsFailB C rest true = true := fun hb => by
            rw [(ih _ n).mpr (by simpa [Option.isSome] using hb)] at hr
            exact Option.noConfusion hr
          simp [hnf]
      | none =>
        rw [mpHdrLoop_cons_raw_fresh C nm r rest n hct hrb]
        cases hr : mpHdrLoop C rest (some (C.make_boundary n)) (n + 1) with
        | none =>
          have hfail := (ih _ (n + 1)).mp hr
          simp only [Option.isSome] at hfail
          simp [hfail]
        | some tr =>
          obtain ⟨evs0, bnd0, n0⟩ := tr
          have hnf : ¬ mpHdrsFailB C rest true = true := fun hb => by
            rw [(ih _ (n + 1)).mpr (by simpa [Option.isSome] using hb)] at hr
            exact Option.noConfusion hr
          simp [hnf]
    | none =>
      rw [mpHdrLoop_cons_raw_nof C nm r rest n hct hrb]
      cases hr : mpHdrLoop C rest (some (C.make_boundary n)) (n + 1) with
      | none =>
        have hfail := (ih _ (n + 1)).mp hr
        simp only [Option.isSome] at hfail
        simp [hfail]
      | some tr =>
        obtain ⟨evs0, bnd0, n0⟩ := tr
        have hnf : ¬ mpHdrsFailB C rest true = true := fun hb => by
          rw [(ih _ (n + 1)).mpr (by simpa [Option.isSome] using hb)] at hr
          exact Option.noConfusion hr
        simp [hnf]
  all_goals
    rw [mpHdrLoop.eq_def, mpHdrsFailB.eq_def]
    simp only []
    rw [if_pos ⟨trivial, hct⟩, if_pos ⟨trivial, hct⟩]
    simp

/-- The Multipart header loop aborts exactly when mpHdrsFailB says so (found
being whether a boundary is already resolved). -/
theorem mpHdrLoop_fail_iff (C : Collab) : ∀ (hdrs : List (String × HeaderType))
    (bnd : Option String) (n : Nat),
    (mpHdrLoop C hdrs bnd n = none ↔ mpHdrsFailB C hdrs bnd.isSome = true) := by
  intro hdrs
  induction hdrs with
  | nil =>
    intro bnd n
    simp [mpHdrLoop, mpHdrsFailB]
  | cons hd rest ih =>
    obtain ⟨nm, hv⟩ := hd
    intro bnd n
    by_cases hcond : bnd = none ∧ eqIgnoreCase nm "Content-Type" = true
    · obtain ⟨rfl, hct⟩ := hcond
      exact mpHdrLoop_fail_iff_ct C nm hv rest n hct ih
    · have hcond' : ¬ ((bnd.isSome : Bool) = false ∧ eqIgnoreCase nm "Content-Type" = true) := by
        intro hx
        exact hcond ⟨by cases bnd <;> simp_all [Option.isSome], hx.2⟩
      rw [mpHdrsFailB_cons_gen C nm hv rest bnd.isSome hcond']
      cases hw : HeaderType.write_header C hv (nm.length + 2) with
      | none =>
        rw [mpHdrLoop_cons_gen_fail C nm hv rest bnd n hcond hw]
        simp
      | some bs =>
        rw [mpHdrLoop_cons_gen C nm hv rest bnd n bs hcond hw]
        cases hr : mpHdrLoop C rest bnd n with
        | none =>
          have hfail := (ih bnd n).mp hr
          simp [hfail]
        | some tr =>
          obtain ⟨evs0, bnd0, n0⟩ := tr
          have hnf : ¬ mpHdrsFailB C rest bnd.isSome = true := fun hb => by
            rw [(ih bnd n).mpr hb] at hr
            exact Option.noConfusion hr
          simp [hnf]
theorem mpHdrLoop_some_props_ct (C : Collab) (nm : String) (hv : HeaderType)
    (rest : List (String × HeaderType)) (n : Nat)
    (hct : eqIgnoreCase nm "Content-Type" = true)
    (ih : ∀ (bnd : Option String) (n : Nat) (evs : List Ev) (bnd' : Option String) (n' : Nat),
      mpHdrLoop C rest bnd n = some (evs, bnd', n') →
      closeLabels evs = [] ∧ openLabels evs = [] ∧ ctNameCount evs = ctEntries rest) :
    ∀ (evs : List Ev) (bnd' : Option String) (n' : Nat),
      mpHdrLoop C ((nm, hv) :: rest) none n = some (evs, bnd', n') →
      closeLabels evs = [] ∧ openLabels evs = [] ∧
        ctNameCount evs = ctEntries ((nm, hv) :: rest) := by
  cases hv
  case contentType ct =>
    intro evs bnd' n' h
    cases hf : findBoundaryAttr ct.attributes with
    | some pos =>
      rw [mpHdrLoop_cons_ct_found C nm ct rest n pos hct hf] at h
      cases hr : mpHdrLoop C rest (some ((ct.attributes.getD pos ("", "")).2)) n with
      | none =>
        rw [hr] at h
        exact Option.noConfusion h
      | some tr =>
        obtain ⟨evs0, bnd0, n0⟩ := tr
        rw [hr] at h
        simp only [Option.some.injEq, Prod.mk.injEq] at h
        obtain ⟨rfl, rfl, rfl⟩ := h
        obtain ⟨hc0, ho0, hcnt0⟩ := ih _ _ _ _ _ hr
        refine ⟨?_, ?_, ?_⟩
        · rw [closeLabels_cons_hdrName, closeLabels_cons_bytes]
          exact hc0
        · rw [openLabels_cons_hdrName, openLabels_cons_bytes]
          exact ho0
        · rw [ctNameCount_cons_hdrName, ctNameCount_cons_bytes, hcnt0, ctEntries_cons]
    | none =>
      rw [mpHdrLoop_cons_ct_nofound C nm ct rest n hct hf] at h
      cases hr : mpHdrLoop C rest (some (C.make_boundary n)) (n + 1) with
      | none =>
        rw [hr] at h
        exact Option.noConfusion h
      | some tr =>
        obtain ⟨evs0, bnd0, n0⟩ := tr
        rw [hr] at h
        simp only [Option.some.injEq, Prod.mk.injEq] at h
        obtain ⟨rfl, rfl, rfl⟩ := h
        obtain ⟨hc0, ho0, hcnt0⟩ := ih _ _ _ _ _ hr
        refine ⟨?_, ?_, ?_⟩
        · rw [closeLabels_cons_hdrName, closeLabels_cons_bytes]
          exact hc0
        · rw [openLabels_cons_hdrName, openLabels_cons_bytes]
          exact ho0
        · rw [ctNameCount_cons_hdrName, ctNameCount_cons_bytes, hcnt0, ctEntries_cons]
  case raw r =>
    intro evs bnd' n' h
    cases hrb : rawBoundary r with
    | some ob =>
      cases ob with
      | some b =>
        rw [mpHdrLoop_cons_raw_found C nm r rest n b hct hrb] at h
        cases hr : mpHdrLoop C rest (some b) n with
        | none =>
          rw [hr] at h
          exact Option.noConfusion h
        | some tr =>
          obtain ⟨evs0, bnd0, n0⟩ := tr
          rw [hr] at h
          simp only [Option.some.injEq, Prod.mk.injEq] at h
          obtain ⟨rfl, rfl, rfl⟩ := h
          obtain ⟨hc0, ho0, hcnt0⟩ := ih _ _ _ _ _ hr
          refine ⟨?_, ?_, ?_⟩
          · rw [closeLabels_cons_hdrName]
            exact hc0
          · rw [openLabels_cons_hdrName]
            exact ho0
          · rw [ctNameCount_cons_hdrName, hcnt0, ctEntries_cons]
      | none =>
        rw [mpHdrLoop_cons_raw_fresh C nm r rest n hct hrb] at h
        cases hr : mpHdrLoop C rest (some (C.make_boundary n)) (n + 1) with
        | none =>
          rw [hr] at h
          exact Option.noConfusion h
        | some tr =>
          obtain ⟨evs0, bnd0, n0⟩ := tr
          rw [hr] at h
          simp only [Option.some.injEq, Prod.mk.injEq] at h
          obtain ⟨rfl, rfl, rfl⟩ := h
          obtain ⟨hc0, ho0, hcnt0⟩ := ih _ _ _ _ _ hr
          refine ⟨?_, ?_, ?_⟩
          · rw [closeLabels_cons_hdrName]
            exact hc0
          · rw [openLabels_cons_hdrName]
            exact ho0
          · rw [ctNameCount_cons_hdrName, hcnt0, ctEntries_cons]
    | none =>
      rw [mpHdrLoop_cons_raw_nof C nm r rest n hct hrb] at h
      cases hr : mpHdrLoop C rest (some (C.make_boundary n)) (n + 1) with
      | none =>
        rw [hr] at h
        exact Option.noConfusion h
      | some tr =>
        obtain ⟨evs0, bnd0, n0⟩ := tr
        rw [hr] at h
        simp only [Option.some.injEq, Prod.mk.injEq] at h
        obtain ⟨rfl, rfl, rfl⟩ := h
        obtain ⟨hc0, ho0, hcnt0⟩ := ih _ _ _ _ _ hr
        refine ⟨?_, ?_, ?_⟩
        · rw [closeLabels_cons_hdrName, closeLabels_cons_bytes]
          exact hc0
        · rw [openLabels_cons_hdrName, openLabels_cons_bytes]
          exact ho0
        · rw [ctNameCount_cons_hdrName, ctNameCount_cons_bytes, hcnt0, ctEntries_cons]
  all_goals
    intro evs bnd' n' h
    rw [mpHdrLoop.eq_def] at h
    simp only [] at h
    rw [if_pos ⟨trivial, hct⟩] at h
    exact Option.noConfusion h

/-- A successful run of the Multipart header loop emits no delimiters and
one Content-Type line per Content-Type entry. -/
theorem mpHdrLoop_some_props (C : Collab) : ∀ (hdrs : List (String × HeaderType))
    (bnd : Option String) (n : Nat) (evs : List Ev) (bnd' : Option String) (n' : Nat),
    mpHdrLoop C hdrs bnd n = some (evs, bnd', n') →
    closeLabels evs = [] ∧ openLabels evs = [] ∧ ctNameCount evs = ctEntries hdrs := by
  intro hdrs
  induction hdrs with
  | nil =>
    intro bnd n evs bnd' n' h
    simp only [mpHdrLoop, Option.some.injEq, Prod.mk.injEq] at h
    obtain ⟨rfl, rfl, rfl⟩ := h
    exact ⟨rfl, rfl, rfl⟩
  | cons hd rest ih =>
    obtain ⟨nm, hv⟩ := hd
    intro bnd n evs bnd' n' h
    by_cases hcond : bnd = none ∧ eqIgnoreCase nm "Content-Type" = true
    · obtain ⟨rfl, hct⟩ := hcond
      exact mpHdrLoop_some_props_ct C nm hv rest n hct (fun b k => ih b k) evs bnd' n' h
    · cases hw : HeaderType.write_header C hv (nm.length + 2) with
      | none =>
        rw [mpHdrLoop_cons_gen_fail C nm hv rest bnd n hcond hw] at h
        exact Option.noConfusion h
      | some bs =>
        rw [mpHdrLoop_cons_gen C nm hv rest bnd n bs hcond hw] at h
        cases hr : mpHdrLoop C rest bnd n with
        | none =>
          rw [hr] at h
          exact Option.noConfusion h
        | some tr =>
          obtain ⟨evs0, bnd0, n0⟩ := tr
          rw [hr] at h
          simp only [Option.some.injEq, Prod.mk.injEq] at h
          obtain ⟨rfl, rfl, rfl⟩ := h
          obtain ⟨hc0, ho0, hcnt0⟩ := ih _ _ _ _ _ hr
          refine ⟨?_, ?_, ?_⟩
          · rw [closeLabels_cons_hdrName, closeLabels_cons_bytes]
            exact hc0
          · rw [openLabels_cons_hdrName, openLabels_cons_bytes]
            exact ho0
          · rw [ctNameCount_cons_hdrName, ctNameCount_cons_bytes, hcnt0, ctEntries_cons]

/-- Once a boundary is resolved the loop keeps it and the counter unchanged. -/
theorem mpHdrLoop_keep (C : Collab) : ∀ (hdrs : List (String × HeaderType))
    (b0 : String) (n : Nat) (evs : List Ev) (bnd' : Option String) (n' : Nat),
    mpHdrLoop C hdrs (some b0) n = some (evs, bnd', n') → bnd' = some b0 ∧ n' = n := by
  intro hdrs
  induction hdrs with
  | nil =>
    intro b0 n evs bnd' n' h
    simp only [mpHdrLoop, Option.some.injEq, Prod.mk.injEq] at h
    obtain ⟨rfl, rfl, rfl⟩ := h
    exact ⟨rfl, rfl⟩
  | cons hd rest ih =>
    obtain ⟨nm, hv⟩ := hd
    intro b0 n evs bnd' n' h
    have hcond : ¬ ((some b0 : Option String) = none ∧ eqIgnoreCase nm "Content-Type" = true) := by
      simp
    cases hw : HeaderType.write_header C hv (nm.length + 2) with
    | none =>
      rw [mpHdrLoop_cons_gen_fail C nm hv rest (some b0) n hcond hw] at h
      exact Option.noConfusion h
    | some bs =>
      rw [mpHdrLoop_cons_gen C nm hv rest (some b0) n bs hcond hw] at h
      cases hr : mpHdrLoop C rest (some b0) n with
      | none =>
        rw [hr] at h
        exact Option.noConfusion h
      | some tr =>
        obtain ⟨evs0, bnd0, n0⟩ := tr
        rw [hr] at h
        simp only [Option.some.injEq, Prod.mk.injEq] at h
        obtain ⟨rfl, rfl, rfl⟩ := h
        exact ih _ _ _ _ _ hr
theorem mpHdrLoop_none_dich_ct (C : Collab) (nm : String) (hv : HeaderType)
    (rest : List (String × HeaderType)) (n : Nat)
    (hct : eqIgnoreCase nm "Content-Type" = true) :
    ∀ (evs : List Ev) (bnd' : Option String) (n' : Nat),
      mpHdrLoop C ((nm, hv) :: rest) none n = some (evs, bnd', n') →
      ((bnd' = none ∧ ctCallerB ((nm, hv) :: rest) = none ∧
          ctEntries ((nm, hv) :: rest) = 0 ∧ n' = n) ∨
       (∃ b, bnd' = some b ∧ 0 < ctEntries ((nm, hv) :: rest) ∧
         ((ctCallerB ((nm, hv) :: rest) = some b ∧ n' = n) ∨
          (ctCallerB ((nm, hv) :: rest) = none ∧ b = C.make_boundary n ∧ n' = n + 1)))) := by
  cases hv
  case contentType ct =>
    intro evs bnd' n' h
    cases hf : findBoundaryAttr ct.attributes with
    | some pos =>
      rw [mpHdrLoop_cons_ct_found C nm ct rest n pos hct hf] at h
      cases hr : mpHdrLoop C rest (some ((ct.attributes.getD pos ("", "")).2)) n with
      | none =>
        rw [hr] at h
        exact Option.noConfusion h
      | some tr =>
        obtain ⟨evs0, bnd0, n0⟩ := tr
        rw [hr] at h
        simp only [Option.some.injEq, Prod.mk.injEq] at h
        obtain ⟨rfl, rfl, rfl⟩ := h
        obtain ⟨rfl, rfl⟩ := mpHdrLoop_keep C rest _ n _ _ _ hr
        refine Or.inr ⟨_, rfl, ?_, Or.inl ⟨?_, rfl⟩⟩
        · rw [ctEntries_cons]
          simp [hct]
        · rw [ctCallerB_cons_ct nm ct rest hct, hf]
    | none =>
      rw [mpHdrLoop_cons_ct_nofound C nm ct rest n hct hf] at h
      cases hr : mpHdrLoop C rest (some (C.make_boundary n)) (n + 1) with
      | none =>
        rw [hr] at h
        exact Option.noConfusion h
      | some tr =>
        obtain ⟨evs0, bnd0, n0⟩ := tr
        rw [hr] at h
        simp only [Option.some.injEq, Prod.mk.injEq] at h
        obtain ⟨rfl, rfl, rfl⟩ := h
        obtain ⟨rfl, rfl⟩ := mpHdrLoop_keep C rest _ (n + 1) _ _ _ hr
        refine Or.inr ⟨_, rfl, ?_, Or.inr ⟨?_, rfl, rfl⟩⟩
        · rw [ctEntries_cons]
          simp [hct]
        · rw [ctCallerB_cons_ct nm ct rest hct, hf]
  case raw r =>
    intro evs bnd' n' h
    cases hrb : rawBoundary r with
    | some ob =>
      cases ob with
      | some b =>
        rw [mpHdrLoop_cons_raw_found C nm r rest n b hct hrb] at h
        cases hr : mpHdrLoop C rest (some b) n with
        | none =>
          rw [hr] at h
          exact Option.noConfusion h
        | some tr =>
          obtain ⟨evs0, bnd0, n0⟩ := tr
          rw [hr] at h
          simp only [Option.some.injEq, Prod.mk.injEq] at h
          obtain ⟨rfl, rfl, rfl⟩ := h
          obtain ⟨rfl, rfl⟩ := mpHdrLoop_keep C rest _ n _ _ _ hr
          refine Or.inr ⟨_, rfl, ?_, Or.inl ⟨?_, rfl⟩⟩
          · rw [ctEntries_cons]
            simp [hct]
          · rw [ctCallerB_cons_raw nm r rest hct, hrb]
      | none =>
        rw [mpHdrLoop_cons_raw_fresh C nm r rest n hct hrb] at h
        cases hr : mpHdrLoop C rest (some (C.make_boundary n)) (n + 1) with
        | none =>
          rw [hr] at h
          exact Option.noConfusion h
        | some tr =>
          obtain ⟨evs0, bnd0, n0⟩ := tr
          rw [hr] at h
          simp only [Option.some.injEq, Prod.mk.injEq] at h
          obtain ⟨rfl, rfl, rfl⟩ := h
          obtain ⟨rfl, rfl⟩ := mpHdrLoop_keep C rest _ (n + 1) _ _ _ hr
          refine Or.inr ⟨_, rfl, ?_, Or.inr ⟨?_, rfl, rfl⟩⟩
          · rw [ctEntries_cons]
            simp [hct]
          · rw [ctCallerB_cons_raw nm r rest hct, hrb]
    | none =>
      rw [mpHdrLoop_cons_raw_nof C nm r rest n hct hrb] at h
      cases hr : mpHdrLoop C rest (some (C.make_boundary n)) (n + 1) with
      | none =>
        rw [hr] at h
        exact Option.noConfusion h
      | some tr =>
        obtain ⟨evs0, bnd0, n0⟩ := tr
        rw [hr] at h
        simp only [Option.some.injEq, Prod.mk.injEq] at h
        obtain ⟨rfl, rfl, rfl⟩ := h
        obtain ⟨rfl, rfl⟩ := mpHdrLoop_keep C rest _ (n + 1) _ _ _ hr
        refine Or.inr ⟨_, rfl, ?_, Or.inr ⟨?_, rfl, rfl⟩⟩
        · rw [ctEntries_cons]
          simp [hct]
        · rw [ctCallerB_cons_raw nm r rest hct, hrb]
  all_goals
    intro evs bnd' n' h
    rw [mpHdrLoop.eq_def] at h
    simp only [] at h
    rw [if_pos ⟨trivial, hct⟩] at h
    exact Option.noConfusion h

/-- A successful no-boundary-yet run of the Multipart header loop either
finds no Content-Type (boundary still none, counter unchanged) or resolves
the boundary to the caller-supplied one (counter unchanged) or to a fresh
generated one (counter bumped once). -/
theorem mpHdrLoop_none_dich (C : Collab) : ∀ (hdrs : List (String × HeaderType))
    (n : Nat) (evs : List Ev) (bnd' : Option String) (n' : Nat),
    mpHdrLoop C hdrs none n = some (evs, bnd', n') →
    ((bnd' = none ∧ ctCallerB hdrs = none ∧ ctEntries hdrs = 0 ∧ n' = n) ∨
     (∃ b, bnd' = some b ∧ 0 < ctEntries hdrs ∧
       ((ctCallerB hdrs = some b ∧ n' = n) ∨
        (ctCallerB hdrs = none ∧ b = C.make_boundary n ∧ n' = n + 1)))) := by
  intro hdrs
  induction hdrs with
  | nil =>
    intro n evs bnd' n' h
    simp only [mpHdrLoop, Option.some.injEq, Prod.mk.injEq] at h
    obtain ⟨rfl, rfl, rfl⟩ := h
    exact Or.inl ⟨rfl, rfl, rfl, rfl⟩
  | cons hd rest ih =>
    obtain ⟨nm, hv⟩ := hd
    intro n evs bnd' n' h
    by_cases hct : eqIgnoreCase nm "Content-Type" = true
    · exact mpHdrLoop_none_dich_ct C nm hv rest n hct evs bnd' n' h
    · replace hct : eqIgnoreCase nm "Content-Type" = false := by
        simpa using hct
      have hcond : ¬ ((none : Option String) = none ∧ eqIgnoreCase nm "Content-Type" = true) := by
        simp [hct]
      cases hw : HeaderType.write_header C hv (nm.length + 2) with
      | none =>
        rw [mpHdrLoop_cons_gen_fail C nm hv rest none n hcond hw] at h
        exact Option.noConfusion h
      | some bs =>
        rw [mpHdrLoop_cons_gen C nm hv rest none n bs hcond hw] at h
        cases hr : mpHdrLoop C rest none n with
        | none =>
          rw [hr] at h
          exact Option.noConfusion h
        | some tr =>
          obtain ⟨evs0, bnd0, n0⟩ := tr
          rw [hr] at h
          simp only [Option.some.injEq, Prod.mk.injEq] at h
          obtain ⟨rfl, rfl, rfl⟩ := h
          have hdich := ih n _ _ _ hr
          rw [ctEntries_cons, ctCallerB_cons_skip nm hv rest hct]
          simpa [hct] using hdich
/-- Characterization of the full Multipart header handling: it aborts
exactly when the header loop does (bad first Content-Type value or a
panicking generic header write); a successful run emits no delimiters,
emits one Content-Type header line per entry plus one synthesized line when
there was none, and the resolved boundary is the caller-supplied one
(counter unchanged) or a freshly generated one (counter bumped once). -/
theorem mpHeaders_char (C : Collab) (hdrs : List (String × HeaderType)) (n : Nat) :
    (mpHeaders C hdrs n = none ↔ mpHdrsFailB C hdrs false = true) ∧
    (∀ evs b n', mpHeaders C hdrs n = some (evs, b, n') →
      closeLabels evs = [] ∧ openLabels evs = [] ∧
      ctNameCount evs = ctEntries hdrs + (if ctEntries hdrs = 0 then 1 else 0) ∧
      ((ctCallerB hdrs = some b ∧ n' = n) ∨
       (ctCallerB hdrs = none ∧ b = C.make_boundary n ∧ n' = n + 1))) := by
  have hiff := mpHdrLoop_fail_iff C hdrs none n
  simp only [Option.isSome_none] at hiff
  constructor
  · rw [mpHeaders]
    cases hrec : mpHdrLoop C hdrs none n with
    | none =>
      simp only []
      simp [hiff.mp hrec]
    | some tr =>
      obtain ⟨evs0, bnd0, n0⟩ := tr
      have hnb : ¬ mpHdrsFailB C hdrs false = true := fun hb => by
        rw [hiff.mpr hb] at hrec
        exact Option.noConfusion hrec
      cases bnd0 with
      | none =>
        simp only []
        simp [hnb]
      | some b0 =>
        simp only []
        simp [hnb]
  · intro evs b n' h
    rw [mpHeaders] at h
    cases hrec : mpHdrLoop C hdrs none n with
    | none =>
      rw [hrec] at h
      exact Option.noConfusion h
    | some tr =>
      obtain ⟨evs0, bnd0, n0⟩ := tr
      rw [hrec] at h
      obtain ⟨hc0, ho0, hcnt0⟩ := mpHdrLoop_some_props C hdrs none n evs0 bnd0 n0 hrec
      have hdich := mpHdrLoop_none_dich C hdrs n evs0 bnd0 n0 hrec
      cases bnd0 with
      | some b0 =>
        simp only [Option.some.injEq, Prod.mk.injEq] at h
        obtain ⟨rfl, rfl, rfl⟩ := h
        rcases hdich with ⟨hb, _, _, _⟩ | ⟨b1, hb1, hpos, hdi⟩
        · exact Option.noConfusion hb
        · injection hb1 with hb1
          subst hb1
          refine ⟨hc0, ho0, ?_, hdi⟩
          rw [hcnt0]
          have hne : ¬ ctEntries hdrs = 0 := by omega
          simp [hne]
      | none =>
        simp only [Option.some.injEq, Prod.mk.injEq] at h
        obtain ⟨rfl, rfl, rfl⟩ := h
        rcases hdich with ⟨_, hcb, hent, rfl⟩ | ⟨b1, hb1, _, _⟩
        · refine ⟨?_, ?_, ?_, Or.inr ⟨hcb, rfl, rfl⟩⟩
          · rw [closeLabels_append, hc0]
            rfl
          · rw [openLabels_append, ho0]
            rfl
          · rw [ctNameCount_append, hcnt0, hent, ctNameCount_cons_hdrName, ctNameCount_cons_bytes]
            rw [if_pos (by decide : eqIgnoreCase "Content-Type" "Content-Type" = true)]
            simp [ctNameCount]
        · exact Option.noConfusion hb1
/-- A successful header emission has no delimiters and one Content-Type
line per Content-Type entry. -/
theorem hdrEvs_props (C : Collab) : ∀ (hdrs : List (String × HeaderType)) (evs : List Ev),
    hdrEvs C hdrs = some evs →
    closeLabels evs = [] ∧ openLabels evs = [] ∧ ctNameCount evs = ctEntries hdrs := by
  intro hdrs
  induction hdrs with
  | nil =>
    intro evs h
    simp only [hdrEvs, Option.some.injEq] at h
    subst h
    exact ⟨rfl, rfl, rfl⟩
  | cons hd rest ih =>
    obtain ⟨nm, hv⟩ := hd
    intro evs h
    rw [hdrEvs] at h
    cases hw : HeaderType.write_header C hv (nm.length + 2) with
    | none =>
      rw [hw] at h
      exact Option.noConfusion h
    | some bs =>
      rw [hw] at h
      simp only [] at h
      cases hr : hdrEvs C rest with
      | none =>
        rw [hr] at h
        exact Option.noConfusion h
      | some evs0 =>
        rw [hr] at h
        simp only [Option.some.injEq] at h
        subst h
        obtain ⟨hc0, ho0, hcnt0⟩ := ih evs0 hr
        refine ⟨?_, ?_, ?_⟩
        · rw [closeLabels_cons_hdrName, closeLabels_cons_bytes]
          exact hc0
        · rw [openLabels_cons_hdrName, openLabels_cons_bytes]
          exact ho0
        · rw [ctNameCount_cons_hdrName, ctNameCount_cons_bytes, hcnt0, ctEntries_cons]

theorem textPart_props (C : Collab) (hdrs : List (String × HeaderType)) (s : List Nat)
    (evs : List Ev) (h : textPartEvs C hdrs s = some evs) :
    closeLabels evs = [] ∧ openLabels evs = [] ∧ ctNameCount evs = ctEntries hdrs := by
  rw [textPartEvs] at h
  cases hr : hdrEvs C hdrs with
  | none =>
    rw [hr] at h
    exact Option.noConfusion h
  | some hevs =>
    rw [hr] at h
    simp only [Option.some.injEq] at h
    subst h
    obtain ⟨hc, ho, hcnt⟩ := hdrEvs_props C hdrs hevs hr
    refine ⟨?_, ?_, ?_⟩
    · rw [closeLabels_append, hc, closeLabels_detect]
      rfl
    · rw [openLabels_append, ho, openLabels_detect]
      rfl
    · rw [ctNameCount_append, hcnt, ctNameCount_detect]
      rfl

theorem binPart_props (C : Collab) (hdrs : List (String × HeaderType)) (bts : List Nat)
    (evs : List Ev) (h : binPartEvs C hdrs bts = some evs) :
    closeLabels evs = [] ∧ openLabels evs = [] ∧ ctNameCount evs = ctEntries hdrs := by
  rw [binPartEvs] at h
  cases hr : hdrEvs C hdrs with
  | none =>
    rw [hr] at h
    exact Option.noConfusion h
  | some hevs =>
    rw [hr] at h
    simp only [Option.some.injEq] at h
    subst h
    obtain ⟨hc, ho, hcnt⟩ := hdrEvs_props C hdrs hevs hr
    by_cases hb : (binFlags hdrs false false).1 = false
    · refine ⟨?_, ?_, ?_⟩
      · rw [closeLabels_append, hc]
        simp [hb, closeLabels]
      · rw [openLabels_append, ho]
        simp [hb, openLabels]
      · rw [ctNameCount_append, hcnt]
        simp [hb, ctNameCount]
    · refine ⟨?_, ?_, ?_⟩
      · rw [closeLabels_append, hc]
        simp [hb, closeLabels_detect]
      · rw [openLabels_append, ho]
        simp [hb, openLabels_detect]
      · rw [ctNameCount_append, hcnt]
        simp [hb, ctNameCount_detect]

theorem textPartEvs_none (C : Collab) (hdrs : List (String × HeaderType)) (s : List Nat) :
    (textPartEvs C hdrs s = none ↔ hdrEvs C hdrs = none) := by
  rw [textPartEvs]
  cases hdrEvs C hdrs <;> simp

theorem binPartEvs_none (C : Collab) (hdrs : List (String × HeaderType)) (bts : List Nat) :
    (binPartEvs C hdrs bts = none ↔ hdrEvs C hdrs = none) := by
  rw [binPartEvs]
  cases hdrEvs C hdrs <;> simp
/-- The recursive trace of a part fails exactly when serializing the part
aborts: a bad first Content-Type on a multipart node or a panicking header
value writer, anywhere in the tree. -/
theorem trace_abort (C : Collab) :
    ∀ p n, (partTraceSpec C p n = none ↔ hasAbort C p = true) := by
  refine partTraceSpec.induct C
    (fun p n => partTraceSpec C p n = none ↔ hasAbort C p = true)
    (fun ps b n => sibsSpec C ps b n = none ↔ hasAbortList C ps = true)
    ?_ ?_ ?_ ?_ ?_ ?_ ?_ ?_ ?_ ?_ ?_
  · intro hdrs s n evs hte
    rw [partTraceSpec, hte]
    have hne : ¬ hdrEvs C hdrs = none := fun hn => by
      rw [(textPartEvs_none C hdrs s).mpr hn] at hte
      exact Option.noConfusion hte
    simp [hasAbort, Option.isNone_iff_eq_none, hne]
  · intro hdrs s n hte
    rw [partTraceSpec, hte]
    have hne : hdrEvs C hdrs = none := (textPartEvs_none C hdrs s).mp hte
    simp [hasAbort, Option.isNone_iff_eq_none, hne]
  · intro hdrs bts n evs hte
    rw [partTraceSpec, hte]
    have hne : ¬ hdrEvs C hdrs = none := fun hn => by
      rw [(binPartEvs_none C hdrs bts).mpr hn] at hte
      exact Option.noConfusion hte
    simp [hasAbort, Option.isNone_iff_eq_none, hne]
  · intro hdrs bts n hte
    rw [partTraceSpec, hte]
    have hne : hdrEvs C hdrs = none := (binPartEvs_none C hdrs bts).mp hte
    simp [hasAbort, Option.isNone_iff_eq_none, hne]
  · intro hdrs cs n hEvs b n1 hmp cEvs n2 hs ih
    rw [partTraceSpec, hmp]
    simp only []
    rw [hs]
    simp only []
    have hnb : ¬ mpHdrsFailB C hdrs false = true := fun hb => by
      rw [(mpHeaders_char C hdrs n).1.mpr hb] at hmp
      exact Option.noConfusion hmp
    have hnl : ¬ hasAbortList C cs = true := fun hb => by
      rw [ih.mpr hb] at hs
      exact Option.noConfusion hs
    simp [hasAbort, hnb, hnl]
  · intro hdrs cs n hEvs b n1 hmp hs ih
    rw [partTraceSpec, hmp]
    simp only []
    rw [hs]
    simp [hasAbort, ih.mp hs]
  · intro hdrs cs n hmp
    rw [partTraceSpec, hmp]
    simp [hasAbort, (mpHeaders_char C hdrs n).1.mp hmp]
  · intro b n
    simp [sibsSpec, hasAbortList]
  · intro p ps b n cEvs n2 hp cEvs2 n21 hs ih1 ih2
    rw [sibsSpec, hp]
    simp only []
    rw [hs]
    simp only []
    have h1 : ¬ hasAbort C p = true := fun hb => by
      rw [ih1.mpr hb] at hp
      exact Option.noConfusion hp
    have h2 : ¬ hasAbortList C ps = true := fun hb => by
      rw [ih2.mpr hb] at hs
      exact Option.noConfusion hs
    simp [hasAbortList, h1, h2]
  · intro p ps b n cEvs n2 hp hs ih1 ih2
    rw [sibsSpec, hp]
    simp only []
    rw [hs]
    simp [hasAbortList, ih2.mp hs]
  · intro p ps b n hp ih1
    rw [sibsSpec, hp]
    simp [hasAbortList, ih1.mp hp]

theorem badCT_fail (C : Collab) : ∀ (hdrs : List (String × HeaderType)),
    badCT hdrs = true → mpHdrsFailB C hdrs false = true := by
  intro hdrs
  induction hdrs with
  | nil =>
    intro h
    exact absurd h (by simp [badCT])
  | cons hd rest ih =>
    obtain ⟨nm, hv⟩ := hd
    intro h
    cases hv
    case contentType ct =>
      by_cases hct : eqIgnoreCase nm "Content-Type" = true
      · rw [badCT_cons_ct nm ct rest hct] at h
        exact absurd h (by simp)
      · replace hct : eqIgnoreCase nm "Content-Type" = false := by
          simpa using hct
        rw [badCT_cons_skip nm _ rest hct] at h
        rw [mpHdrsFailB_cons_gen C nm _ rest false (by simp [hct])]
        simp [ih h]
    case raw r =>
      by_cases hct : eqIgnoreCase nm "Content-Type" = true
      · rw [badCT_cons_raw nm r rest hct] at h
        exact absurd h (by simp)
      · replace hct : eqIgnoreCase nm "Content-Type" = false := by
          simpa using hct
        rw [badCT_cons_skip nm _ rest hct] at h
        rw [mpHdrsFailB_cons_gen C nm _ rest false (by simp [hct])]
        simp [ih h]
    all_goals
      by_cases hct : eqIgnoreCase nm "Content-Type" = true
      · rw [mpHdrsFailB.eq_def]
        simp only []
        rw [if_pos ⟨trivial, hct⟩]
      · replace hct : eqIgnoreCase nm "Content-Type" = false := by
          simpa using hct
        rw [badCT_cons_skip nm _ rest hct] at h
        rw [mpHdrsFailB_cons_gen C nm _ rest false (by simp [hct])]
        simp [ih h]

/-- A bad first Content-Type on some multipart node always aborts the run. -/
theorem hasBad_abort (C : Collab) : ∀ p, hasBad p = true → hasAbort C p = true := by
  refine hasBad.induct (fun p => hasBad p = true → hasAbort C p = true)
    (fun ps => hasBadList ps = true → hasAbortList C ps = true) ?_ ?_ ?_ ?_ ?_
  · intro hdrs cs ih h
    rw [hasBad] at h
    rw [hasAbort]
    cases (Bool.or_eq_true _ _).mp h with
    | inl hb => simp [badCT_fail C hdrs hb]
    | inr hb => simp [ih hb]
  · intro headers s h
    exact absurd h (by simp [hasBad])
  · intro headers b h
    exact absurd h (by simp [hasBad])
  · intro h
    exact absurd h (by simp [hasBadList])
  · intro p ps ih1 ih2 h
    rw [hasBadList] at h
    rw [hasAbortList]
    cases (Bool.or_eq_true _ _).mp h with
    | inl hb => simp [ih1 hb]
    | inr hb => simp [ih2 hb]
theorem loopSpec_cons_some (C : Collab) (p : MimePart) (it : List MimePart)
    (stack : List Frame) (b : String) (n : Nat) :
    loopSpec C (p :: it) stack (some b) n =
      match partTraceSpec C p n with
      | some (pevs, n1) =>
        (match loopSpec C it stack (some b) n1 with
         | some rest => some (Ev.openDelim b :: (pevs ++ rest))
         | none => none)
      | none => none := by
  rw [loopSpec, sibsSpec]
  cases hp : partTraceSpec C p n with
  | none => rfl
  | some pr =>
    obtain ⟨pevs, n1⟩ := pr
    simp only []
    rw [loopSpec]
    cases hs : sibsSpec C it b n1 with
    | none => rfl
    | some pr2 =>
      obtain ⟨evs', n'⟩ := pr2
      simp only []
      cases hr : resumeSpec C stack n' with
      | none => rfl
      | some rest => simp

theorem loopSpec_cons_none_text (C : Collab) (hdrs : List (String × HeaderType))
    (s : List Nat) (it : List MimePart) (stack : List Frame) (n : Nat) :
    loopSpec C (MimePart.mk hdrs (BodyPart.text s) :: it) stack none n =
      match textPartEvs C hdrs s with
      | some pevs =>
        (match loopSpec C it stack none n with
         | some rest => some (pevs ++ rest)
         | none => none)
      | none => none := by
  rw [loopSpec, nbSpec, loopSpec]
  cases hte : textPartEvs C hdrs s with
  | none => rfl
  | some pevs =>
    simp only []
    cases hs : nbSpec C it n with
    | none => rfl
    | some pr =>
      obtain ⟨evs', n'⟩ := pr
      simp only []
      cases hr : resumeSpec C stack n' with
      | none => rfl
      | some rest => simp

theorem loopSpec_cons_none_binary (C : Collab) (hdrs : List (String × HeaderType))
    (bts : List Nat) (it : List MimePart) (stack : List Frame) (n : Nat) :
    loopSpec C (MimePart.mk hdrs (BodyPart.binary bts) :: it) stack none n =
      match binPartEvs C hdrs bts with
      | some pevs =>
        (match loopSpec C it stack none n with
         | some rest => some (pevs ++ rest)
         | none => none)
      | none => none := by
  rw [loopSpec, nbSpec, loopSpec]
  cases hte : binPartEvs C hdrs bts with
  | none => rfl
  | some pevs =>
    simp only []
    cases hs : nbSpec C it n with
    | none => rfl
    | some pr =>
      obtain ⟨evs', n'⟩ := pr
      simp only []
      cases hr : resumeSpec C stack n' with
      | none => rfl
      | some rest => simp

theorem loopSpec_cons_none_mp (C : Collab) (hdrs : List (String × HeaderType))
    (cs : List MimePart) (it : List MimePart) (stack : List Frame) (n : Nat) :
    loopSpec C (MimePart.mk hdrs (BodyPart.multipart cs) :: it) stack none n =
      match partTraceSpec C (MimePart.mk hdrs (BodyPart.multipart cs)) n with
      | some (pevs, n1) =>
        (match resumeSpec C stack n1 with
         | some rest => some (pevs ++ rest)
         | none => none)
      | none => none := by
  rw [loopSpec, nbSpec, partTraceSpec]
theorem writeLoop_eq (C : Collab) : ∀ (it : List MimePart) (stack : List Frame)
    (bnd : Option String) (n : Nat), writeLoop C it stack bnd n = loopSpec C it stack bnd n := by
  intro it stack bnd n
  induction it, stack, bnd, n using writeLoop.induct C with
  | case1 hdrs s it stack bnd n pevs hte evs hx ih =>
    have hspec : loopSpec C it stack bnd n = some evs := ih.symm.trans hx
    rw [writeLoop]
    simp only [hte, hx]
    rcases bnd with _ | b
    · rw [loopSpec_cons_none_text]
      simp only [hte, hspec]
      simp [delimEvs]
    · rw [loopSpec_cons_some, partTraceSpec]
      simp only [hte, hspec]
      simp [delimEvs]
  | case2 hdrs s it stack bnd n pevs hte hx ih =>
    have hspec : loopSpec C it stack bnd n = none := ih.symm.trans hx
    rw [writeLoop]
    simp only [hte, hx]
    rcases bnd with _ | b
    · rw [loopSpec_cons_none_text]
      simp only [hte, hspec]
    · rw [loopSpec_cons_some, partTraceSpec]
      simp only [hte, hspec]
  | case3 hdrs s it stack bnd n hte =>
    rw [writeLoop]
    simp only [hte]
    rcases bnd with _ | b
    · rw [loopSpec_cons_none_text]
      simp only [hte]
    · rw [loopSpec_cons_some, partTraceSpec]
      simp only [hte]
  | case4 hdrs bts it stack bnd n pevs hte evs hx ih =>
    have hspec : loopSpec C it stack bnd n = some evs := ih.symm.trans hx
    rw [writeLoop]
    simp only [hte, hx]
    rcases bnd with _ | b
    · rw [loopSpec_cons_none_binary]
      simp only [hte, hspec]
      simp [delimEvs]
    · rw [loopSpec_cons_some, partTraceSpec]
      simp only [hte, hspec]
      simp [delimEvs]
  | case5 hdrs bts it stack bnd n pevs hte hx ih =>
    have hspec : loopSpec C it stack bnd n = none := ih.symm.trans hx
    rw [writeLoop]
    simp only [hte, hx]
    rcases bnd with _ | b
    · rw [loopSpec_cons_none_binary]
      simp only [hte, hspec]
    · rw [loopSpec_cons_some, partTraceSpec]
      simp only [hte, hspec]
  | case6 hdrs bts it stack bnd n hte =>
    rw [writeLoop]
    simp only [hte]
    rcases bnd with _ | b
    · rw [loopSpec_cons_none_binary]
      simp only [hte]
    · rw [loopSpec_cons_some, partTraceSpec]
      simp only [hte]
  | case7 hdrs cs it stack bnd n stack' hEvs b n1 hmp evs hx ih =>
    rw [writeLoop, hmp]
    rcases bnd with _ | b0
    · have hstack : stack' = stack := by simp [stack']
      rw [hstack] at hx ih
      simp only [Option.isSome_none, Bool.false_eq_true, if_false, hx]
      have hspec : loopSpec C cs stack (some b) n1 = some evs := ih.symm.trans hx
      rw [loopSpec_cons_none_mp, partTraceSpec, hmp]
      rw [loopSpec] at hspec
      cases hs : sibsSpec C cs b n1 with
      | none =>
        rw [hs] at hspec
        simp at hspec
      | some pr =>
        obtain ⟨cEvs, n2⟩ := pr
        rw [hs] at hspec
        simp only [] at hspec
        cases hr : resumeSpec C stack n2 with
        | none =>
          rw [hr] at hspec
          simp at hspec
        | some rest =>
          rw [hr] at hspec
          simp only [Option.some.injEq] at hspec
          simp only [hs, hr]
          simp [delimEvs, ← hspec]
    · have hstack : stack' = (it, some b0) :: stack := by simp [stack']
      rw [hstack] at hx ih
      simp only [Option.isSome_some, if_true, hx]
      have hspec : loopSpec C cs ((it, some b0) :: stack) (some b) n1 = some evs := ih.symm.trans hx
      rw [loopSpec_cons_some, partTraceSpec, hmp]
      rw [loopSpec] at hspec
      cases hs : sibsSpec C cs b n1 with
      | none =>
        rw [hs] at hspec
        simp at hspec
      | some pr =>
        obtain ⟨cEvs, n2⟩ := pr
        rw [hs] at hspec
        simp only [] at hspec
        rw [resumeSpec_cons] at hspec
        cases hr : loopSpec C it stack (some b0) n2 with
        | none =>
          rw [hr] at hspec
          simp at hspec
        | some rest =>
          rw [hr] at hspec
          simp only [Option.some.injEq] at hspec
          simp only [hs, hr]
          simp [delimEvs, ← hspec]
  | case8 hdrs cs it stack bnd n stack' hEvs b n1 hmp hx ih =>
    rw [writeLoop, hmp]
    rcases bnd with _ | b0
    · have hstack : stack' = stack := by simp [stack']
      rw [hstack] at hx ih
      simp only [Option.isSome_none, Bool.false_eq_true, if_false, hx]
      have hspec : loopSpec C cs stack (some b) n1 = none := ih.symm.trans hx
      rw [loopSpec_cons_none_mp, partTraceSpec, hmp]
      rw [loopSpec] at hspec
      cases hs : sibsSpec C cs b n1 with
      | none => simp [hs]
      | some pr =>
        obtain ⟨cEvs, n2⟩ := pr
        rw [hs] at hspec
        simp only [] at hspec
        cases hr : resumeSpec C stack n2 with
        | none => simp [hs, hr]
        | some rest =>
          rw [hr] at hspec
          simp at hspec
    · have hstack : stack' = (it, some b0) :: stack := by simp [stack']
      rw [hstack] at hx ih
      simp only [Option.isSome_some, if_true, hx]
      have hspec : loopSpec C cs ((it, some b0) :: stack) (some b) n1 = none := ih.symm.trans hx
      rw [loopSpec_cons_some, partTraceSpec, hmp]
      rw [loopSpec] at hspec
      cases hs : sibsSpec C cs b n1 with
      | none => simp [hs]
      | some pr =>
        obtain ⟨cEvs, n2⟩ := pr
        rw [hs] at hspec
        simp only [] at hspec
        rw [resumeSpec_cons] at hspec
        cases hr : loopSpec C it stack (some b0) n2 with
        | none => simp [hs, hr]
        | some rest =>
          rw [hr] at hspec
          simp at hspec
  | case9 hdrs cs it stack bnd n hmp =>
    rw [writeLoop, hmp]
    rcases bnd with _ | b0
    · rw [loopSpec_cons_none_mp, partTraceSpec, hmp]
    · rw [loopSpec_cons_some, partTraceSpec, hmp]
  | case10 it' bnd' st bnd n evs hx ih =>
    have hspec : loopSpec C it' st bnd' n = some evs := ih.symm.trans hx
    rw [writeLoop]
    simp only [hx]
    rcases bnd with _ | b
    · rw [loopSpec, nbSpec]
      simp only []
      rw [resumeSpec_cons, hspec]
      simp [closeEvs]
    · rw [loopSpec, sibsSpec]
      simp only []
      rw [resumeSpec_cons, hspec]
      simp [closeEvs]
  | case11 it' bnd' st bnd n hx ih =>
    have hspec : loopSpec C it' st bnd' n = none := ih.symm.trans hx
    rw [writeLoop]
    simp only [hx]
    rcases bnd with _ | b
    · rw [loopSpec, nbSpec]
      simp only []
      rw [resumeSpec_cons, hspec]
    · rw [loopSpec, sibsSpec]
      simp only []
      rw [resumeSpec_cons, hspec]
  | case12 bnd n =>
    rw [writeLoop]
    rcases bnd with _ | b
    · rfl
    · rfl

theorem write_part_spec (C : Collab) (p : MimePart) (n : Nat) :
    write_part C p n = (partTraceSpec C p n).map Prod.fst := by
  rw [write_part, writeLoop_eq, loopSpec]
  obtain ⟨hdrs, c⟩ := p
  cases c with
  | text s =>
    rw [nbSpec, partTraceSpec]
    cases hte : textPartEvs C hdrs s with
    | none => rfl
    | some pevs => simp [nbSpec, resumeSpec]
  | binary bts =>
    rw [nbSpec, partTraceSpec]
    cases hte : binPartEvs C hdrs bts with
    | none => rfl
    | some pevs => simp [nbSpec, resumeSpec]
  | multipart cs =>
    rw [nbSpec, partTraceSpec]
    cases hm : mpHeaders C hdrs n with
    | none => rfl
    | some tr =>
      obtain ⟨hEvs, b, n1⟩ := tr
      simp only []
      cases hs : sibsSpec C cs b n1 with
      | none => rfl
      | some pr =>
        obtain ⟨cEvs, n2⟩ := pr
        simp [resumeSpec]
theorem BndInv.append (C : Collab) (cal1 cal2 extra : List String)
    (n n1 n2 : Nat) (e1 e2 : List Ev)
    (h1 : BndInv C cal1 extra n n1 e1) (h2 : BndInv C cal2 extra n1 n2 e2) :
    BndInv C (cal1 ++ cal2) extra n n2 (e1 ++ e2) := by
  obtain ⟨hm1, hc1, ho1, hn1⟩ := h1
  obtain ⟨hm2, hc2, ho2, hn2⟩ := h2
  refine ⟨by omega, ?_, ?_, ?_⟩
  · intro s hs
    rw [closeLabels_append] at hs
    rcases List.mem_append.mp hs with hs | hs
    · rcases hc1 s hs with hcal | ⟨k, hk1, hk2, hkeq⟩
      · exact Or.inl (List.mem_append_left _ hcal)
      · exact Or.inr ⟨k, by omega, by omega, hkeq⟩
    · rcases hc2 s hs with hcal | ⟨k, hk1, hk2, hkeq⟩
      · exact Or.inl (List.mem_append_right _ hcal)
      · exact Or.inr ⟨k, by omega, by omega, hkeq⟩
  · intro s hs
    rw [openLabels_append] at hs
    rw [closeLabels_append]
    rcases List.mem_append.mp hs with hs | hs
    · rcases ho1 s hs with hx | hx
      · exact Or.inl hx
      · exact Or.inr (List.mem_append_left _ hx)
    · rcases ho2 s hs with hx | hx
      · exact Or.inl hx
      · exact Or.inr (List.mem_append_right _ hx)
  · intro hinj hnd hdisj
    rw [closeLabels_append]
    rw [List.nodup_append] at hnd
    obtain ⟨hnd1, hnd2, hdj⟩ := hnd
    rw [List.nodup_append]
    refine ⟨hn1 hinj hnd1 (fun s hs k => hdisj s (List.mem_append_left _ hs) k),
            hn2 hinj hnd2 (fun s hs k => hdisj s (List.mem_append_right _ hs) k), ?_⟩
    intro s hs1 hs2
    rcases hc1 s hs1 with hcal1 | ⟨k1, hk11, hk12, hkeq1⟩
    · rcases hc2 s hs2 with hcal2 | ⟨k2, hk21, hk22, hkeq2⟩
      · exact hdj hcal1 hcal2
      · exact hdisj s (List.mem_append_left _ hcal1) k2 hkeq2.symm
    · rcases hc2 s hs2 with hcal2 | ⟨k2, hk21, hk22, hkeq2⟩
      · exact hdisj s (List.mem_append_right _ hcal2) k1 hkeq1.symm
      · have : k1 = k2 := hinj (hkeq1 ▸ hkeq2 ▸ rfl : C.make_boundary k1 = C.make_boundary k2)
        omega

theorem BndInv.consOpen (C : Collab) (caller extra : List String)
    (n n' : Nat) (b : String) (evs : List Ev)
    (hb : b ∈ extra) (h : BndInv C caller extra n n' evs) :
    BndInv C caller extra n n' (Ev.openDelim b :: evs) := by
  obtain ⟨hm, hc, ho, hn⟩ := h
  refine ⟨hm, ?_, ?_, ?_⟩
  · intro s hs
    rw [closeLabels_cons_open] at hs
    exact hc s hs
  · intro s hs
    rw [openLabels_cons_open, List.mem_cons] at hs
    rw [closeLabels_cons_open]
    rcases hs with rfl | hs
    · exact Or.inl hb
    · exact ho s hs
  · intro hinj hnd hdisj
    rw [closeLabels_cons_open]
    exact hn hinj hnd hdisj

theorem BndInv.weakenExtra (C : Collab) (caller ex1 ex2 : List String)
    (n n' : Nat) (evs : List Ev)
    (hsub : ∀ s ∈ ex1, s ∈ ex2) (h : BndInv C caller ex1 n n' evs) :
    BndInv C caller ex2 n n' evs := by
  obtain ⟨hm, hc, ho, hn⟩ := h
  refine ⟨hm, hc, ?_, hn⟩
  intro s hs
  rcases ho s hs with hx | hx
  · exact Or.inl (hsub s hx)
  · exact Or.inr hx

theorem BndInv.noDelims (C : Collab) (caller extra : List String) (n : Nat) (evs : List Ev)
    (hc : closeLabels evs = []) (ho : openLabels evs = []) :
    BndInv C caller extra n n evs := by
  refine ⟨Nat.le_refl n, ?_, ?_, ?_⟩
  · intro s hs
    rw [hc] at hs
    exact absurd hs (List.not_mem_nil s)
  · intro s hs
    rw [ho] at hs
    exact absurd hs (List.not_mem_nil s)
  · intro _ _ _
    rw [hc]
    exact List.nodup_nil

/-- Assembling the invariant at a multipart node: headers with no delimiters,
a blank line, the children segment, and the closing delimiter of the node's
own boundary b. -/
theorem BndInv.mpNode (C : Collab) (hinj : Function.Injective C.make_boundary)
    (calHd : Option String) (calCs : List String) (b : String)
    (n n1 n2 : Nat) (hEvs cEvs : List Ev)
    (hc : closeLabels hEvs = []) (ho : openLabels hEvs = [])
    (hdich : (calHd = some b ∧ n1 = n) ∨ (calHd = none ∧ b = C.make_boundary n ∧ n1 = n + 1))
    (hinv : BndInv C calCs [b] n1 n2 cEvs) :
    BndInv C (calHd.toList ++ calCs) [] n n2
      (hEvs ++ [Ev.bytes [13, 10]] ++ cEvs ++ [Ev.closeDelim b]) := by
  obtain ⟨hm, hcm, hom, hn⟩ := hinv
  have hmono : n ≤ n1 := by rcases hdich with ⟨_, rfl⟩ | ⟨_, _, rfl⟩ <;> omega
  have hce : closeLabels (hEvs ++ [Ev.bytes [13, 10]] ++ cEvs ++ [Ev.closeDelim b]) =
      closeLabels cEvs ++ [b] := by
    rw [closeLabels_append, closeLabels_append, closeLabels_append, hc,
        closeLabels_cons_bytes, closeLabels_nil, closeLabels_cons_close, closeLabels_nil]
    simp
  have hoe : openLabels (hEvs ++ [Ev.bytes [13, 10]] ++ cEvs ++ [Ev.closeDelim b]) =
      openLabels cEvs := by
    rw [openLabels_append, openLabels_append, openLabels_append, ho,
        openLabels_cons_bytes, openLabels_nil, openLabels_cons_close, openLabels_nil]
    simp
  refine ⟨by omega, ?_, ?_, ?_⟩
  · intro s hs
    rw [hce] at hs
    rcases List.mem_append.mp hs with hs | hs
    · rcases hcm s hs with hcal | ⟨k, hk1, hk2, hkeq⟩
      · exact Or.inl (List.mem_append_right _ hcal)
      · exact Or.inr ⟨k, by omega, by omega, hkeq⟩
    · rw [List.mem_singleton] at hs
      subst hs
      rcases hdich with ⟨hcb, rfl⟩ | ⟨hcb, hbeq, rfl⟩
      · refine Or.inl (List.mem_append_left _ ?_)
        rw [hcb]
        exact List.mem_singleton_self s
      · exact Or.inr ⟨n, Nat.le_refl n, by omega, hbeq⟩
  · intro s hs
    rw [hoe] at hs
    rw [hce]
    rcases hom s hs with hx | hx
    · rw [List.mem_singleton] at hx
      subst hx
      exact Or.inr (List.mem_append_right _ (List.mem_singleton_self s))
    · exact Or.inr (List.mem_append_left _ hx)
  · intro _ hnd hdisj
    rw [hce]
    rw [List.nodup_append] at hnd
    obtain ⟨hnd1, hnd2, hdj⟩ := hnd
    have hndc := hn hinj hnd2 (fun s hs k => hdisj s (List.mem_append_right _ hs) k)
    have hbnot : b ∉ closeLabels cEvs := by
      intro hbmem
      rcases hcm b hbmem with hcal | ⟨k, hk1, hk2, hkeq⟩
      · rcases hdich with ⟨hcb, _⟩ | ⟨hcb, hbeq, _⟩
        · exact hdj (by rw [hcb]; exact List.mem_singleton_self b) hcal
        · exact hdisj b (List.mem_append_right _ hcal) n hbeq.symm
      · rcases hdich with ⟨hcb, rfl⟩ | ⟨hcb, hbeq, rfl⟩
        · refine hdisj b (List.mem_append_left _ ?_) k hkeq.symm
          rw [hcb]
          exact List.mem_singleton_self b
        · have : n = k := hinj (hbeq ▸ hkeq ▸ rfl : C.make_boundary n = C.make_boundary k)
          omega
    rw [List.nodup_append]
    refine ⟨hndc, List.nodup_singleton b, ?_⟩
    intro s hs1 hs2
    rw [List.mem_singleton] at hs2
    subst hs2
    exact hbnot hs1

/-- The boundary-label invariant holds of every successful recursive trace. -/
theorem trace_bnd_inv (C : Collab) (hinj : Function.Injective C.make_boundary) :
    ∀ p n, ∀ evs n', partTraceSpec C p n = some (evs, n') →
      BndInv C (callerBs p) [] n n' evs := by
  refine partTraceSpec.induct C
    (fun p n => ∀ evs n', partTraceSpec C p n = some (evs, n') →
      BndInv C (callerBs p) [] n n' evs)
    (fun ps b n => ∀ evs n', sibsSpec C ps b n = some (evs, n') →
      BndInv C (callerBsList ps) [b] n n' evs)
    ?_ ?_ ?_ ?_ ?_ ?_ ?_ ?_ ?_ ?_ ?_
  · intro hdrs s n pevs hte evs n' h
    rw [partTraceSpec, hte] at h
    simp only [Option.some.injEq, Prod.mk.injEq] at h
    obtain ⟨rfl, rfl⟩ := h
    obtain ⟨hc, ho, _⟩ := textPart_props C hdrs s pevs hte
    have hcb : callerBs (MimePart.mk hdrs (BodyPart.text s)) = [] := rfl
    rw [hcb]
    exact BndInv.noDelims C [] [] n pevs hc ho
  · intro hdrs s n hte evs n' h
    rw [partTraceSpec, hte] at h
    exact Option.noConfusion h
  · intro hdrs bts n pevs hte evs n' h
    rw [partTraceSpec, hte] at h
    simp only [Option.some.injEq, Prod.mk.injEq] at h
    obtain ⟨rfl, rfl⟩ := h
    obtain ⟨hc, ho, _⟩ := binPart_props C hdrs bts pevs hte
    have hcb : callerBs (MimePart.mk hdrs (BodyPart.binary bts)) = [] := rfl
    rw [hcb]
    exact BndInv.noDelims C [] [] n pevs hc ho
  · intro hdrs bts n hte evs n' h
    rw [partTraceSpec, hte] at h
    exact Option.noConfusion h
  · intro hdrs cs n hEvs b n1 hmp cEvs n2 hs ih evs n' h
    rw [partTraceSpec, hmp] at h
    simp only [] at h
    rw [hs] at h
    simp only [Option.some.injEq, Prod.mk.injEq] at h
    obtain ⟨rfl, rfl⟩ := h
    obtain ⟨hc, ho, _, hdich⟩ := (mpHeaders_char C hdrs n).2 hEvs b n1 hmp
    have hinv := ih cEvs n2 hs
    have hres := BndInv.mpNode C hinj (ctCallerB hdrs) (callerBsList cs) b n n1 n2 hEvs cEvs hc ho hdich hinv
    have hcb : callerBs (MimePart.mk hdrs (BodyPart.multipart cs)) =
        (ctCallerB hdrs).toList ++ callerBsList cs := rfl
    rw [hcb]
    exact hres
  · intro hdrs cs n hEvs b n1 hmp hs ih evs n' h
    rw [partTraceSpec, hmp] at h
    simp only [] at h
    rw [hs] at h
    exact Option.noConfusion h
  · intro hdrs cs n hmp evs n' h
    rw [partTraceSpec, hmp] at h
    exact Option.noConfusion h
  · intro b n evs n' h
    rw [sibsSpec] at h
    simp only [Option.some.injEq, Prod.mk.injEq] at h
    obtain ⟨rfl, rfl⟩ := h
    have hcb : callerBsList ([] : List MimePart) = [] := rfl
    rw [hcb]
    exact BndInv.noDelims C [] [b] n [] rfl rfl
  · intro p ps b n pevs n2 hp sevs n21 hs ih1 ih2 evs n' h
    rw [sibsSpec, hp] at h
    simp only [] at h
    rw [hs] at h
    simp only [Option.some.injEq, Prod.mk.injEq] at h
    obtain ⟨rfl, rfl⟩ := h
    have h1 := ih1 pevs n2 hp
    have h1' := BndInv.weakenExtra C (callerBs p) [] [b] n n2 pevs
      (fun s hs => absurd hs (List.not_mem_nil s)) h1
    have h2 := ih2 sevs n21 hs
    have h12 := BndInv.append C (callerBs p) (callerBsList ps) [b] n n2 n21 pevs sevs h1' h2
    have hres := BndInv.consOpen C (callerBs p ++ callerBsList ps) [b] n n21 b (pevs ++ sevs)
      (List.mem_singleton_self b) h12
    have hcb : callerBsList (p :: ps) = callerBs p ++ callerBsList ps := rfl
    rw [hcb]
    exact hres
  · intro p ps b n pevs n2 hp hs ih1 ih2 evs n' h
    rw [sibsSpec, hp] at h
    simp only [] at h
    rw [hs] at h
    exact Option.noConfusion h
  · intro p ps b n hp ih1 evs n' h
    rw [sibsSpec, hp] at h
    exact Option.noConfusion h
theorem nestRun_append : ∀ (a c : List Ev) (st : List String),
    nestRun (a ++ c) st = match nestRun a st with
      | some st' => nestRun c st'
      | none => none := by
  intro a
  induction a with
  | nil =>
    intro c st
    rfl
  | cons e a ih =>
    intro c st
    cases e with
    | openDelim b =>
      cases st with
      | nil =>
        rw [List.cons_append, nestRun, nestRun]
        exact ih c [b]
      | cons top rest =>
        rw [List.cons_append, nestRun, nestRun]
        by_cases hb : b = top
        · rw [if_pos hb, if_pos hb]
          exact ih c (top :: rest)
        · rw [if_neg hb, if_neg hb]
          exact ih c (b :: top :: rest)
    | closeDelim b =>
      cases st with
      | nil =>
        rw [List.cons_append, nestRun, nestRun]
        exact ih c []
      | cons top rest =>
        rw [List.cons_append, nestRun, nestRun]
        by_cases hb : b = top
        · rw [if_pos hb, if_pos hb]
          exact ih c rest
        · rw [if_neg hb, if_neg hb]
          by_cases hmem : b ∈ top :: rest
          · rw [if_pos hmem, if_pos hmem]
          · rw [if_neg hmem, if_neg hmem]
            exact ih c (top :: rest)
    | hdrName nm =>
      exact ih c st
    | bytes bs =>
      exact ih c st

theorem nestRun_noDelims : ∀ (evs : List Ev) (st : List String),
    closeLabels evs = [] → openLabels evs = [] → nestRun evs st = some st := by
  intro evs
  induction evs with
  | nil =>
    intro st _ _
    rfl
  | cons e evs ih =>
    intro st hc ho
    cases e with
    | openDelim b =>
      rw [openLabels_cons_open] at ho
      exact absurd ho (by simp)
    | closeDelim b =>
      rw [closeLabels_cons_close] at hc
      exact absurd hc (by simp)
    | hdrName nm =>
      rw [closeLabels_cons_hdrName] at hc
      rw [openLabels_cons_hdrName] at ho
      exact ih st hc ho
    | bytes bs =>
      rw [closeLabels_cons_bytes] at hc
      rw [openLabels_cons_bytes] at ho
      exact ih st hc ho

theorem nestRun_strayClose (b : String) (st : List String) (hb : b ∉ st) :
    nestRun [Ev.closeDelim b] st = some st := by
  cases st with
  | nil => rfl
  | cons top st' =>
    rw [nestRun]
    rw [if_neg (fun hbt : b = top => hb (hbt ▸ List.mem_cons_self top st'))]
    rw [if_neg hb]
    rfl

theorem nestRun_consOpen_push (b : String) (st : List String) (hb : b ∉ st)
    (rest : List Ev) :
    nestRun (Ev.openDelim b :: rest) st = nestRun rest (b :: st) := by
  cases st with
  | nil => rfl
  | cons top st' =>
    rw [nestRun]
    rw [if_neg (fun hbt : b = top => hb (hbt ▸ List.mem_cons_self top st'))]

theorem nestRun_consOpen_top (b : String) (st : List String) (rest : List Ev) :
    nestRun (Ev.openDelim b :: rest) (b :: st) = nestRun rest (b :: st) := by
  rw [nestRun]
  rw [if_pos rfl]
/-- Well-nestedness of every successful trace: under the distinctness
provisos, the nesting checker runs the trace from any stack disjoint from
its close labels back to that same stack; at the sibling level, the
children segment followed by the node's closing delimiter runs from the
stack with the node's boundary pushed back to the stack without it. -/
theorem trace_nest (C : Collab) (hinj : Function.Injective C.make_boundary) :
    ∀ p n, ∀ evs n', partTraceSpec C p n = some (evs, n') →
      (callerBs p).Nodup → (∀ s ∈ callerBs p, ∀ k, C.make_boundary k ≠ s) →
      ∀ st, (∀ s ∈ closeLabels evs, s ∉ st) → nestRun evs st = some st := by
  refine partTraceSpec.induct C
    (fun p n => ∀ evs n', partTraceSpec C p n = some (evs, n') →
      (callerBs p).Nodup → (∀ s ∈ callerBs p, ∀ k, C.make_boundary k ≠ s) →
      ∀ st, (∀ s ∈ closeLabels evs, s ∉ st) → nestRun evs st = some st)
    (fun ps b n => ∀ evs n', sibsSpec C ps b n = some (evs, n') →
      (callerBsList ps).Nodup → (∀ s ∈ callerBsList ps, ∀ k, C.make_boundary k ≠ s) →
      ∀ st, b ∉ st → (∀ s ∈ closeLabels evs, s ∉ st ∧ s ≠ b) →
        nestRun (evs ++ [Ev.closeDelim b]) (b :: st) = some st)
    ?_ ?_ ?_ ?_ ?_ ?_ ?_ ?_ ?_ ?_ ?_
  · intro hdrs s n pevs hte evs n' h _ _ st _
    rw [partTraceSpec, hte] at h
    simp only [Option.some.injEq, Prod.mk.injEq] at h
    obtain ⟨rfl, rfl⟩ := h
    obtain ⟨hc, ho, _⟩ := textPart_props C hdrs s pevs hte
    exact nestRun_noDelims pevs st hc ho
  · intro hdrs s n hte evs n' h
    rw [partTraceSpec, hte] at h
    exact Option.noConfusion h
  · intro hdrs bts n pevs hte evs n' h _ _ st _
    rw [partTraceSpec, hte] at h
    simp only [Option.some.injEq, Prod.mk.injEq] at h
    obtain ⟨rfl, rfl⟩ := h
    obtain ⟨hc, ho, _⟩ := binPart_props C hdrs bts pevs hte
    exact nestRun_noDelims pevs st hc ho
  · intro hdrs bts n hte evs n' h
    rw [partTraceSpec, hte] at h
    exact Option.noConfusion h
  · intro hdrs cs n hEvs b n1 hmp cEvs n2 hs ih evs n' h hnd hdisj st hstk
    rw [partTraceSpec, hmp] at h
    simp only [] at h
    rw [hs] at h
    simp only [Option.some.injEq, Prod.mk.injEq] at h
    obtain ⟨rfl, rfl⟩ := h
    obtain ⟨hc, ho, _, _⟩ := (mpHeaders_char C hdrs n).2 hEvs b n1 hmp
    have hce : closeLabels (hEvs ++ [Ev.bytes [13, 10]] ++ cEvs ++ [Ev.closeDelim b]) =
        closeLabels cEvs ++ [b] := by
      rw [closeLabels_append, closeLabels_append, closeLabels_append, hc,
          closeLabels_cons_bytes, closeLabels_nil, closeLabels_cons_close, closeLabels_nil]
      simp
    have htr : partTraceSpec C (MimePart.mk hdrs (BodyPart.multipart cs)) n =
        some (hEvs ++ [Ev.bytes [13, 10]] ++ cEvs ++ [Ev.closeDelim b], n2) := by
      rw [partTraceSpec, hmp]
      simp only []
      rw [hs]
    have hbi := trace_bnd_inv C hinj _ n _ n2 htr
    have hndc := hbi.2.2.2 hinj hnd hdisj
    rw [hce] at hndc
    rw [List.nodup_append] at hndc
    have hbnot : b ∉ closeLabels cEvs := fun hbmem =>
      hndc.2.2 hbmem (List.mem_singleton_self b)
    have hbst : b ∉ st := hstk b (by rw [hce]; exact List.mem_append_right _ (List.mem_singleton_self b))
    have hstk' : ∀ s ∈ closeLabels cEvs, s ∉ st ∧ s ≠ b := by
      intro s hsm
      refine ⟨hstk s (by rw [hce]; exact List.mem_append_left _ hsm), ?_⟩
      intro hsb
      subst hsb
      exact hbnot hsm
    have hcb : callerBs (MimePart.mk hdrs (BodyPart.multipart cs)) =
        (ctCallerB hdrs).toList ++ callerBsList cs := rfl
    rw [hcb] at hnd hdisj
    rw [List.nodup_append] at hnd
    have hnd' : (callerBsList cs).Nodup := hnd.2.1
    have hdisj' : ∀ s ∈ callerBsList cs, ∀ k, C.make_boundary k ≠ s :=
      fun s hsm k => hdisj s (List.mem_append_right _ hsm) k
    have hM2 := ih cEvs n2 hs hnd' hdisj' st hbst hstk'
    have h1 : nestRun (hEvs ++ [Ev.bytes [13, 10]]) st = some st := by
      refine nestRun_noDelims _ st ?_ ?_
      · rw [closeLabels_append, hc]
        rfl
      · rw [openLabels_append, ho]
        rfl
    rw [List.append_assoc (hEvs ++ [Ev.bytes [13, 10]]) cEvs [Ev.closeDelim b]]
    rw [nestRun_append, h1]
    simp only []
    cases cs with
    | nil =>
      rw [sibsSpec] at hs
      simp only [Option.some.injEq, Prod.mk.injEq] at hs
      obtain ⟨rfl, rfl⟩ := hs
      exact nestRun_strayClose b st hbst
    | cons p ps =>
      rw [sibsSpec] at hs
      cases hpp : partTraceSpec C p n1 with
      | none =>
        rw [hpp] at hs
        exact Option.noConfusion hs
      | some pr =>
        obtain ⟨pevs, nn⟩ := pr
        rw [hpp] at hs
        simp only [] at hs
        cases hss : sibsSpec C ps b nn with
        | none =>
          rw [hss] at hs
          exact Option.noConfusion hs
        | some pr2 =>
          obtain ⟨sevs, nfin⟩ := pr2
          rw [hss] at hs
          simp only [Option.some.injEq, Prod.mk.injEq] at hs
          obtain ⟨rfl, rfl⟩ := hs
          rw [List.cons_append] at hM2 ⊢
          rw [nestRun_consOpen_top] at hM2
          rw [nestRun_consOpen_push b st hbst]
          exact hM2
  · intro hdrs cs n hEvs b n1 hmp hs ih evs n' h
    rw [partTraceSpec, hmp] at h
    simp only [] at h
    rw [hs] at h
    exact Option.noConfusion h
  · intro hdrs cs n hmp evs n' h
    rw [partTraceSpec, hmp] at h
    exact Option.noConfusion h
  · intro b n evs n' h _ _ st hbst _
    rw [sibsSpec] at h
    simp only [Option.some.injEq, Prod.mk.injEq] at h
    obtain ⟨rfl, rfl⟩ := h
    rw [List.nil_append]
    rw [nestRun.eq_def]
    simp only []
    rw [if_pos trivial]
    rfl
  · intro p ps b n pevs n2 hp sevs n21 hs ih1 ih2 evs n' h hnd hdisj st hbst hstk
    rw [sibsSpec, hp] at h
    simp only [] at h
    rw [hs] at h
    simp only [Option.some.injEq, Prod.mk.injEq] at h
    obtain ⟨rfl, rfl⟩ := h
    have hcl : closeLabels (Ev.openDelim b :: (pevs ++ sevs)) =
        closeLabels pevs ++ closeLabels sevs := by
      rw [closeLabels_cons_open, closeLabels_append]
    have hcb : callerBsList (p :: ps) = callerBs p ++ callerBsList ps := rfl
    rw [hcb] at hnd hdisj
    rw [List.nodup_append] at hnd
    rw [List.cons_append, List.append_assoc]
    rw [nestRun_consOpen_top]
    rw [nestRun_append]
    have h1 : nestRun pevs (b :: st) = some (b :: st) := by
      refine ih1 pevs n2 hp hnd.1 (fun s hsm k => hdisj s (List.mem_append_left _ hsm) k)
        (b :: st) ?_
      intro s hsm
      have := hstk s (by rw [hcl]; exact List.mem_append_left _ hsm)
      rw [List.mem_cons]
      rintro (rfl | hmem)
      · exact this.2 rfl
      · exact this.1 hmem
    rw [h1]
    refine ih2 sevs n21 hs hnd.2.1 (fun s hsm k => hdisj s (List.mem_append_right _ hsm) k)
      st hbst ?_
    intro s hsm
    exact hstk s (by rw [hcl]; exact List.mem_append_right _ hsm)
  · intro p ps b n pevs n2 hp hs ih1 ih2 evs n' h
    rw [sibsSpec, hp] at h
    simp only [] at h
    rw [hs] at h
    exact Option.noConfusion h
  · intro p ps b n hp ih1 evs n' h
    rw [sibsSpec, hp] at h
    exact Option.noConfusion h
theorem collab0_inj : Function.Injective collab0.make_boundary := by
  intro a b h
  have h2 : String.mk (List.replicate a 'a') = String.mk (List.replicate b 'a') := h
  have h3 : List.replicate a 'a' = List.replicate b 'a' := congrArg String.data h2
  have h4 := congrArg List.length h3
  simpa using h4

/-- Claim C1 counterexample: treeDupX nests two multipart nodes that both
carry the caller-supplied boundary X, and write_part emits the close
delimiters X, X — the emitted boundary tokens are not pairwise distinct
across the tree, refuting the claimed unconditional uniqueness. -/
theorem claim_C1_counterexample :
    (write_part collab0 treeDupX 0).map closeLabels = some ["X", "X"] := by
  rw [write_part_spec]
  decide

/-- Claim C1, amended: when the boundary generator is injective and the
caller-supplied boundaries of the tree are pairwise distinct and disjoint
from the generator's range, every successful write_part run has pairwise
distinct close-delimiter labels across the whole tree, every open-delimiter
label also occurs as a close-delimiter label, the delimiters are well
nested (the nesting checker runs the trace from the empty stack back to the
empty stack, so every opened boundary is closed at its own nesting depth),
and the output is exactly the recursive per-node trace, which emits the
children of every multipart node between that node's delimiters in their
original insertion order. -/
theorem claim_C1_amended (C : Collab) (p : MimePart) (n : Nat) (evs : List Ev)
    (hinj : Function.Injective C.make_boundary)
    (hnd : (callerBs p).Nodup)
    (hdisj : ∀ s ∈ callerBs p, ∀ k, C.make_boundary k ≠ s)
    (h : write_part C p n = some evs) :
    (closeLabels evs).Nodup ∧ (∀ s ∈ openLabels evs, s ∈ closeLabels evs) ∧
      nestRun evs [] = some [] ∧ (partTraceSpec C p n).map Prod.fst = some evs := by
  have hps := write_part_spec C p n
  rw [hps] at h
  cases htr : partTraceSpec C p n with
  | none =>
    rw [htr] at h
    exact Option.noConfusion h
  | some pr =>
    obtain ⟨evs0, n'⟩ := pr
    rw [htr] at h
    simp only [Option.map_some'] at h
    injection h with h
    subst h
    obtain ⟨_, _, ho, hn⟩ := trace_bnd_inv C hinj p n evs0 n' htr
    refine ⟨hn hinj hnd hdisj, ?_, ?_, by rfl⟩
    · intro s hs
      rcases ho s hs with hx | hx
      · exact absurd hx (List.not_mem_nil s)
      · exact hx
    · exact trace_nest C hinj p n evs0 n' htr hnd hdisj [] (fun s _ => List.not_mem_nil s)

/-- Claim C1 witness: the amended theorem applied to the concrete
generator collab0 (injective boundary supply) and the two-level
caller-boundary-free tree treeGen at counter 0. -/
theorem claim_C1_witness :
    write_part collab0 treeGen 0 = some genEvs ∧ (closeLabels genEvs).Nodup ∧
      nestRun genEvs [] = some [] := by
  have hwp : write_part collab0 treeGen 0 = some genEvs := by
    rw [write_part_spec]
    decide
  have hnd : (callerBs treeGen).Nodup := by decide
  have hdisj : ∀ s ∈ callerBs treeGen, ∀ k, collab0.make_boundary k ≠ s := by
    intro s hs
    have hcb : callerBs treeGen = [] := rfl
    rw [hcb] at hs
    exact absurd hs (List.not_mem_nil s)
  obtain ⟨h1, _, h3, _⟩ := claim_C1_amended collab0 treeGen 0 genEvs collab0_inj hnd hdisj hwp
  exact ⟨hwp, h1, h3⟩

/-- Claim C5 counterexample: treeOneChild is a multipart with exactly one
child; the claim predicts no delimiter before the first (here: only) part
of the sibling list, yet write_part emits exactly one opening delimiter. -/
theorem claim_C5_counterexample :
    (write_part collab0 treeOneChild 0).map openDelimCount = some 1 := by
  rw [write_part_spec]
  decide

/-- Claim C5, amended: whenever the iterative writer processes a
non-empty sibling list under an active boundary b, its output starts with
the opening delimiter of b — the delimiter precedes every part of the
list, including the very first. -/
theorem claim_C5_amended (C : Collab) (p : MimePart) (ps : List MimePart)
    (stack : List Frame) (b : String) (n : Nat) :
    Option.all (headIsOpen b) (writeLoop C (p :: ps) stack (some b) n) = true := by
  rw [writeLoop_eq, loopSpec_cons_some]
  cases hp : partTraceSpec C p n with
  | none => rfl
  | some pr =>
    obtain ⟨pevs, n1⟩ := pr
    simp only []
    cases hl : loopSpec C ps stack (some b) n1 with
    | none => rfl
    | some rest =>
      simp only []
      simp [Option.all, headIsOpen]

/-- Claim C8 counterexample: treeBareText is a text part with no headers
at all; write_part emits zero Content-Type header lines for it, refuting
the claimed never-zero count. -/
theorem claim_C8_counterexample :
    (write_part collab0 treeBareText 0).map ctNameCount = some 0 := by
  rw [write_part_spec]
  decide

/-- Claim C8, amended: whenever a text or binary part serializes
successfully, write_part emits exactly as many Content-Type header lines as
the part's header list contains (possibly zero, possibly several); only the
Multipart branch synthesizes a Content-Type when none is present, emitting
one line per Content-Type entry plus exactly one synthesized line when
there was none. -/
theorem claim_C8_amended :
    (∀ (C : Collab) (hdrs : List (String × HeaderType)) (s : List Nat) (n : Nat),
       Option.all (fun evs => ctNameCount evs == ctEntries hdrs)
         (write_part C (MimePart.mk hdrs (BodyPart.text s)) n) = true) ∧
    (∀ (C : Collab) (hdrs : List (String × HeaderType)) (bts : List Nat) (n : Nat),
       Option.all (fun evs => ctNameCount evs == ctEntries hdrs)
         (write_part C (MimePart.mk hdrs (BodyPart.binary bts)) n) = true) ∧
    (∀ (C : Collab) (hdrs : List (String × HeaderType)) (n : Nat),
       Option.all (fun r => ctNameCount r.1 == ctEntries hdrs + (if ctEntries hdrs = 0 then 1 else 0))
         (mpHeaders C hdrs n) = true) := by
  refine ⟨?_, ?_, ?_⟩
  · intro C hdrs s n
    rw [write_part_spec, partTraceSpec]
    cases hte : textPartEvs C hdrs s with
    | none => rfl
    | some pevs =>
      obtain ⟨_, _, hcnt⟩ := textPart_props C hdrs s pevs hte
      simp [Option.all, hcnt]
  · intro C hdrs bts n
    rw [write_part_spec, partTraceSpec]
    cases hte : binPartEvs C hdrs bts with
    | none => rfl
    | some pevs =>
      obtain ⟨_, _, hcnt⟩ := binPart_props C hdrs bts pevs hte
      simp [Option.all, hcnt]
  · intro C hdrs n
    cases hm : mpHeaders C hdrs n with
    | none => rfl
    | some tr =>
      obtain ⟨evs, b, n'⟩ := tr
      obtain ⟨_, _, hcnt, _⟩ := (mpHeaders_char C hdrs n).2 evs b n' hm
      simp [Option.all, hcnt]

/-- Claim C9 counterexample: treeSecondCT is a multipart carrying a
Content-Type-named header whose value is neither a ContentType value nor a
Raw value (its second Content-Type header), yet write_part succeeds: the
panic branch inspects only the first Content-Type-named header. -/
theorem claim_C9_counterexample :
    hasBadCTNamed (MimePart.headersOf treeSecondCT) = true ∧
      write_part collab0 treeSecondCT 0 ≠ none := by
  constructor
  · decide
  · rw [write_part_spec]
    decide

/-- Claim C9, amended: write_part reaches an abort (modelled as none)
exactly when some multipart node's first Content-Type-named header has a
value that is neither a ContentType value nor a Raw value, or the writer of
some emitted header value itself panics (Text::write_header at or past
column 76 under Base64 selection, malformed Address nesting); in
particular a bad first Content-Type on a multipart node always aborts the
run. -/
theorem claim_C9_amended (C : Collab) (p : MimePart) (n : Nat) :
    (write_part C p n = none ↔ hasAbort C p = true) ∧
    (hasBad p = true → write_part C p n = none) := by
  have h1 : write_part C p n = none ↔ hasAbort C p = true := by
    rw [write_part_spec, Option.map_eq_none']
    exact trace_abort C p n
  exact ⟨h1, fun hb => h1.mpr (hasBad_abort C p hb)⟩

/-- Claim C9 witness: treeBadCT carries a Text-valued first Content-Type
header on its multipart root; the amended theorem's abort direction applied
to it under collab0 at counter 0. -/
theorem claim_C9_witness :
    hasBad treeBadCT = true ∧ write_part collab0 treeBadCT 0 = none :=
  ⟨by decide, (claim_C9_amended collab0 treeBadCT 0).2 (by decide)⟩
